import Mathlib

/-!
Verification of the invoice digitization pipeline (Data-Digitization repository).

The repository has three variants of the same pipeline:
* `script.py`      — local GUI, line-item records appended to an Excel sheet;
* `streamlit.py`   — multi-user web app, whole-document records upserted into MongoDB;
* `streamlit1.py`  — multi-user web app, line-item records upserted into MongoDB.

This file shallowly embeds the domain logic of those three files:
the response-slicing parser, the payload validity checks of `append_to_mongodb`,
the discount-reconciliation rule of `append_product_data_to_excel`, the MongoDB
`update_one(..., upsert=True)` loop, and the `groupby` summaries of
`generate_summary_from_mongodb` / `generate_summary_from_product_details`.

Monetary values are embedded as rationals; Python `json.loads` and pandas
`to_datetime` (external library calls) are parameters of the embedding.
Failure by `return None` / `st.error` in the source is embedded as `Option` /
explicit outcome values.
-/

namespace DataDigitization

/-! ### A minimal JSON value model

`json.loads` produces Python dicts/lists/strings/numbers; this type models the
parsed payloads that flow through the pipeline.  Numbers are embedded as `ℚ`. -/

inductive Json where
  | null : Json
  | bool (b : Bool) : Json
  | num (q : ℚ) : Json
  | str (s : String) : Json
  | arr (elems : List Json) : Json
  | obj (fields : List (String × Json)) : Json

namespace Json

/-- Python dict lookup `d.get(key, None)`: first binding of `key`, if any. -/
def get : Json → String → Option Json
  | obj fields, key => (fields.find? (fun p => p.1 = key)).map (·.2)
  | _, _ => none

/-- Python key-membership test `key in d` (False on non-dicts). -/
def hasKey : Json → String → Bool
  | obj fields, key => fields.any (fun p => p.1 = key)
  | _, _ => false

/-- Python truthiness of a parsed JSON value: `None`, `False`, `0`, `""`,
`[]` and `{}` are falsy, everything else truthy. -/
def truthy : Json → Bool
  | null => false
  | bool b => b
  | num q => q ≠ 0
  | str s => ¬ s.isEmpty
  | arr elems => ¬ elems.isEmpty
  | obj fields => ¬ fields.isEmpty

end Json

/-- Python truthiness of `d.get(key, None)`: a missing key means `None`, falsy. -/
def optTruthy : Option Json → Bool
  | none => false
  | some j => j.truthy

/-! ### Python string primitives used by `extract_invoice_data`

`result_text.find('{')`, `result_text.rfind('}')` and the slice
`result_text[start_index:end_index]`.  Strings are embedded as `List Char`. -/

/-- Index of the first occurrence of `c`, if any (`str.find` before the `-1`
encoding). -/
def pyFindAux (c : Char) : List Char → Option ℕ
  | [] => none
  | a :: l => if a = c then some 0 else (pyFindAux c l).map (· + 1)

/-- Python `s.find(c)`: first index of `c`, or `-1`. -/
def pyFind (c : Char) (s : List Char) : ℤ :=
  match pyFindAux c s with
  | some k => (k : ℤ)
  | none => -1

/-- Python `s.rfind(c)`: last index of `c`, or `-1`. -/
def pyRfind (c : Char) (s : List Char) : ℤ :=
  match pyFindAux c s.reverse with
  | some k => ((s.length - 1 - k : ℕ) : ℤ)
  | none => -1

/-- Python slice `s[a:b]` with negative-index normalization and clamping. -/
def pySlice (s : List Char) (a b : ℤ) : List Char :=
  let n := s.length
  let a' : ℕ := if a < 0 then (n + a).toNat else min a.toNat n
  let b' : ℕ := if b < 0 then (n + b).toNat else min b.toNat n
  (s.drop a').take (b' - a')

/-- The cleaning step of `extract_invoice_data` (both `script.py` lines 79-81 and
`streamlit.py` lines 107-109): `result_text[result_text.find('{') : result_text.rfind('}') + 1]`. -/
def cleanedResult (s : List Char) : List Char :=
  pySlice s (pyFind '{' s) (pyRfind '}' s + 1)

/-- The parsing step of `extract_invoice_data`: slice the raw response from the
first `'{'` to the last `'}'` and hand the substring to `json.loads`
(parameter `jparse`, an external library call); a parse failure is caught and
becomes `none` (the function returns `None` after logging). -/
def extractParse (jparse : List Char → Option Json) (s : List Char) : Option Json :=
  jparse (cleanedResult s)

/-! ### Discount reconciliation (`script.py` lines 105-108)

Line 108 assigns through `df.loc[mask, 'discount']`, where
`mask = (unit_price * quantity > total_price) & (discount == 0)`, and the
right-hand side
`np.where(abs(unit_price*quantity - total_price) < 1e-3, 0, unit_price*quantity - total_price)`
is an array computed over the FULL frame.  pandas accepts a list-like
right-hand side only when its length equals the number of selected rows, so
the line has three behaviours:
* the mask selects every row — each row is assigned its own `np.where` entry;
* the mask selects no row — the assignment is a tolerated no-op;
* the mask selects a proper nonempty subset — pandas raises `ValueError`,
  which escapes `append_product_data_to_excel` (no `try`/`except` there), and
  nothing is appended.

`reconcileDiscount` below is the per-row value the `np.where` right-hand side
computes for a masked row (and the unchanged discount for an unmasked one):
the value the rule intends for each row.  The faithful batch-level model of
the assignment, including the length-check error path, is
`locMaskAssignDiscounts` (defined with the sheet model further down); the two
agree exactly on uniform-mask batches (`locMaskAssignDiscounts_uniform`), and
only such batches are fed to the row-wise Excel append model in this file. -/

/-- The discount value the reconciliation rule intends for one row: the
row's `np.where` entry when the row is masked, its extracted discount
otherwise.  The vectorized assignment only realizes this on uniform-mask
batches; see `locMaskAssignDiscounts`. -/
def reconcileDiscount (unit_price quantity total_price discount : ℚ) : ℚ :=
  if unit_price * quantity > total_price ∧ discount = 0 then
    (if |unit_price * quantity - total_price| < 1 / 1000 then 0
     else unit_price * quantity - total_price)
  else discount

/-! ### Validity checks of `append_to_mongodb`

`streamlit.py` lines 120-135: the function returns with an error message when
the payload is falsy or has no `"data"` key; then it raises (and catches)
`ValueError` when any of `vendor_name` / `invoice_number` / `invoice_date` is
falsy; only then does it enter the `update_one` loop.

`streamlit1.py` lines 116-119: the function returns with an error message when
the payload is falsy or has no `"data"` key, and otherwise enters the
`update_one` loop with no header validation at all. -/

/-- Result of the pre-loop checks of `append_to_mongodb`: either an early
return (the `update_one` loop is never reached and the store is untouched),
or the list of items handed to the loop. -/
inductive WDCheck where
  | noData : WDCheck
  | missingEssential : WDCheck
  | proceed (items : List Json) : WDCheck

/-- The list `invoice_data["data"]` iterated by the upsert loop. -/
def wdDataItems (payload : Json) : List Json :=
  match payload.get "data" with
  | some (Json.arr items) => items
  | _ => []

/-- Control flow of `append_to_mongodb` in `streamlit.py` (lines 120-135). -/
def appendToMongodbChecks (payload : Json) : WDCheck :=
  if !payload.truthy || !payload.hasKey "data" then .noData
  else if !optTruthy (payload.get "vendor_name")
        || !optTruthy (payload.get "invoice_number")
        || !optTruthy (payload.get "invoice_date") then .missingEssential
  else .proceed (wdDataItems payload)

/-- Control flow of `append_to_mongodb` in `streamlit1.py` (lines 116-127):
`some items` when the upsert loop is reached, `none` on the early return.
There is no header-field validation in this variant. -/
def appendToMongodbChecksLI (payload : Json) : Option (List Json) :=
  if !payload.truthy || !payload.hasKey "data" then none
  else some (wdDataItems payload)

/-! ### The per-document orchestration (`streamlit.py` lines 340-348)

For each uploaded file the app calls `extract_invoice_data` and, when that
returns a truthy payload, `append_to_mongodb`.  No path retries a document. -/

/-- Outcome of processing one uploaded document. -/
inductive DocOutcome where
  | extractionFailed : DocOutcome
  | skippedFalsy : DocOutcome
  | checked (c : WDCheck) : DocOutcome

/-- One iteration of the upload loop: extract, then (payload permitting) run
the `append_to_mongodb` checks.  `extract_invoice_data` returns `None` both on
a parse failure and on an upload error; falsy payloads are not appended
(`if invoice_data:` in the loop). -/
def processUploadedFile (jparse : List Char → Option Json) (response : List Char) :
    DocOutcome :=
  match extractParse jparse response with
  | none => .extractionFailed
  | some payload => if payload.truthy then .checked (appendToMongodbChecks payload)
                    else .skippedFalsy

/-- The whole upload loop: every document is processed exactly once,
independently; no outcome aborts the batch or retries a document. -/
def uploadBatch (jparse : List Char → Option Json) (responses : List (List Char)) :
    List DocOutcome :=
  responses.map (processUploadedFile jparse)

/-! ### The MongoDB upsert model

Both web variants persist records with

  `product_collection.update_one(filter, {"$set": item}, upsert=True)`

inside a loop over `invoice_data["data"]`.  The filter is the header-field
tuple of the payload plus, in `streamlit1.py`, the item's `product_name`, and
in both variants the acting `username` (which `item.update` also writes into
the item).  `update_one` rewrites the first matching document in place, or
appends a new document made of the filter's equality fields plus the `$set`
fields when there is no match.

The model: a document is a header part `hdr : H` (the filter fields taken
from the payload header) plus an item part `item : I` (the full `$set`
payload).  The part of the filter that comes from the item (`product_name`
and `username` in `streamlit1.py`, `username` alone in `streamlit.py`) is a
projection `π : I → P`, so the filter of an upsert for item `it` under header
`h` matches exactly the documents `d` with `d.hdr = h ∧ π d.item = π it`. -/

/-- A stored document: filter-header fields plus the `$set` item fields. -/
structure MDoc (H I : Type) where
  hdr : H
  item : I
  deriving DecidableEq

/-- `update_one({header-filter, π it}, {"$set": it}, upsert=True)`: rewrite the
item part of the first matching document, else append a new document. -/
def upsert {H I P : Type} [DecidableEq H] [DecidableEq P] (π : I → P) (h : H) (it : I) :
    List (MDoc H I) → List (MDoc H I)
  | [] => [⟨h, it⟩]
  | d :: s =>
    if d.hdr = h ∧ π d.item = π it then ⟨d.hdr, it⟩ :: s
    else d :: upsert π h it s

/-- The `for item in invoice_data["data"]` loop of `append_to_mongodb`:
one upsert per item, all sharing the payload's header. -/
def upsertAll {H I P : Type} [DecidableEq H] [DecidableEq P] (π : I → P) (h : H)
    (s : List (MDoc H I)) (items : List I) : List (MDoc H I) :=
  items.foldl (fun t it => upsert π h it t) s

/-- Item part of the first document matching the key `(h, p)`, if any
(the document `update_one` would rewrite). -/
def slotItem {H I P : Type} [DecidableEq H] [DecidableEq P] (π : I → P) (h : H) (p : P) :
    List (MDoc H I) → Option I
  | [] => none
  | d :: s => if d.hdr = h ∧ π d.item = p then some d.item else slotItem π h p s

/-- Number of stored documents matching the key `(h, p)`. -/
def keyCount {H I P : Type} [DecidableEq H] [DecidableEq P] (π : I → P) (h : H) (p : P)
    (s : List (MDoc H I)) : ℕ :=
  (s.filter (fun d => decide (d.hdr = h ∧ π d.item = p))).length

/-- Last item of a given key in a payload: the one whose `$set` wins. -/
def lastWith {I P : Type} [DecidableEq P] (π : I → P) (p : P) (items : List I) : Option I :=
  (items.filter (fun it => π it = p)).getLast?

section UpsertLemmas

variable {H I P : Type} [DecidableEq H] [DecidableEq P] (π : I → P) (h : H)

/-- Two upserts at the same key collapse to the second: the first one's `$set`
is wholly overwritten. -/
theorem upsert_upsert_same (it it' : I) (hp : π it = π it') (s : List (MDoc H I)) :
    upsert π h it' (upsert π h it s) = upsert π h it' s := by
  induction s with
  | nil => simp [upsert, hp]
  | cons d s ih =>
    by_cases hd : d.hdr = h ∧ π d.item = π it
    · have hd' : d.hdr = h ∧ π d.item = π it' := ⟨hd.1, hp ▸ hd.2⟩
      have hmid : (⟨d.hdr, it⟩ : MDoc H I).hdr = h ∧ π (⟨d.hdr, it⟩ : MDoc H I).item = π it' :=
        ⟨hd.1, hp⟩
      simp only [upsert, if_pos hd, if_pos hd', if_pos hmid]
    · have hd' : ¬ (d.hdr = h ∧ π d.item = π it') := fun hc => hd ⟨hc.1, hp.symm ▸ hc.2⟩
      simp only [upsert, if_neg hd, if_neg hd']
      rw [ih]

/-- After `upsert π h it`, the first document at key `(h, π it)` holds `it`. -/
theorem slotItem_upsert_self (it : I) (s : List (MDoc H I)) :
    slotItem π h (π it) (upsert π h it s) = some it := by
  induction s with
  | nil => simp [upsert, slotItem]
  | cons d s ih =>
    by_cases hd : d.hdr = h ∧ π d.item = π it
    · simp only [upsert, if_pos hd, slotItem]
      simp [hd.1]
    · simp only [upsert, if_neg hd, slotItem, if_neg hd]
      exact ih

/-- An upsert leaves the first document of every other key unchanged. -/
theorem slotItem_upsert_other (it : I) (p : P) (hne : p ≠ π it) (s : List (MDoc H I)) :
    slotItem π h p (upsert π h it s) = slotItem π h p s := by
  induction s with
  | nil =>
    simp only [upsert, slotItem]
    rw [if_neg (fun hc => hne hc.2.symm)]
  | cons d s ih =>
    by_cases hd : d.hdr = h ∧ π d.item = π it
    · have hd' : ¬ (d.hdr = h ∧ π d.item = p) := fun hc => hne ((hc.2 ▸ hd.2 : p = π it))
      have hd'' : ¬ ((⟨d.hdr, it⟩ : MDoc H I).hdr = h ∧
          π (⟨d.hdr, it⟩ : MDoc H I).item = p) := fun hc => hne hc.2.symm
      simp only [upsert, if_pos hd, slotItem, if_neg hd', if_neg hd'']
    · simp only [upsert, if_neg hd, slotItem]
      by_cases hm : d.hdr = h ∧ π d.item = p
      · simp [hm]
      · simp only [if_neg hm]
        exact ih

/-- Upserting an item that the store's matching slot already holds changes
nothing. -/
theorem upsert_noop (it : I) (s : List (MDoc H I))
    (hs : slotItem π h (π it) s = some it) :
    upsert π h it s = s := by
  induction s with
  | nil => simp [slotItem] at hs
  | cons d s ih =>
    by_cases hd : d.hdr = h ∧ π d.item = π it
    · simp only [slotItem, if_pos hd, Option.some_inj] at hs
      simp only [upsert, if_pos hd]
      rw [← hs]
    · simp only [slotItem, if_neg hd] at hs
      simp only [upsert, if_neg hd]
      rw [ih hs]

end UpsertLemmas

/-- Two stores that agree everywhere except possibly on the item part of the
first document at key `(h, p)` (same header, same key part there).  An upsert
at key `(h, p)` erases the difference; upserts never enlarge it. -/
def relExceptSlot {H I P : Type} [DecidableEq H] [DecidableEq P] (π : I → P) (h : H) (p : P) :
    List (MDoc H I) → List (MDoc H I) → Prop
  | [], [] => True
  | a :: A, b :: B =>
    if a.hdr = h ∧ π a.item = p then a.hdr = b.hdr ∧ π b.item = p ∧ A = B
    else a = b ∧ relExceptSlot π h p A B
  | _, _ => False

section RelLemmas

variable {H I P : Type} [DecidableEq H] [DecidableEq P] (π : I → P) (h : H) (p : P)

theorem upsert_cons (it : I) (d : MDoc H I) (s : List (MDoc H I)) :
    upsert π h it (d :: s) =
      if d.hdr = h ∧ π d.item = π it then ⟨d.hdr, it⟩ :: s
      else d :: upsert π h it s := rfl

theorem slotItem_cons (d : MDoc H I) (s : List (MDoc H I)) :
    slotItem π h p (d :: s) =
      if d.hdr = h ∧ π d.item = p then some d.item else slotItem π h p s := rfl

theorem relExceptSlot_cons_iff (a b : MDoc H I) (A B : List (MDoc H I)) :
    relExceptSlot π h p (a :: A) (b :: B) ↔
      (if a.hdr = h ∧ π a.item = p then a.hdr = b.hdr ∧ π b.item = p ∧ A = B
       else a = b ∧ relExceptSlot π h p A B) := Iff.rfl

theorem relExceptSlot_refl (A : List (MDoc H I)) : relExceptSlot π h p A A := by
  induction A with
  | nil => trivial
  | cons a A ih =>
    rw [relExceptSlot_cons_iff]
    by_cases ha : a.hdr = h ∧ π a.item = p
    · rw [if_pos ha]
      exact ⟨rfl, ha.2, rfl⟩
    · rw [if_neg ha]
      exact ⟨rfl, ih⟩

/-- An upsert at the distinguished key collapses related stores to equal ones. -/
theorem upsert_eq_of_rel (it : I) (hπ : π it = p) (A B : List (MDoc H I))
    (hrel : relExceptSlot π h p A B) : upsert π h it A = upsert π h it B := by
  induction A generalizing B with
  | nil =>
    cases B with
    | nil => rfl
    | cons b B => exact False.elim hrel
  | cons a A ih =>
    cases B with
    | nil => exact False.elim hrel
    | cons b B =>
      rw [relExceptSlot_cons_iff] at hrel
      by_cases ha : a.hdr = h ∧ π a.item = p
      · rw [if_pos ha] at hrel
        obtain ⟨hb1, hb2, hAB⟩ := hrel
        have hma : a.hdr = h ∧ π a.item = π it := ⟨ha.1, ha.2.trans hπ.symm⟩
        have hmb : b.hdr = h ∧ π b.item = π it := ⟨hb1.symm.trans ha.1, hb2.trans hπ.symm⟩
        rw [upsert_cons, upsert_cons, if_pos hma, if_pos hmb, hb1, hAB]
      · rw [if_neg ha] at hrel
        obtain ⟨hab, hrel⟩ := hrel
        have hma : ¬ (a.hdr = h ∧ π a.item = π it) := fun hc => ha ⟨hc.1, hc.2.trans hπ⟩
        have hmb : ¬ (b.hdr = h ∧ π b.item = π it) := hab ▸ hma
        rw [upsert_cons, upsert_cons, if_neg hma, if_neg hmb, hab, ih B hrel]

/-- Any upsert (sharing the header `h`) preserves the relation. -/
theorem rel_upsert (it : I) (A B : List (MDoc H I))
    (hrel : relExceptSlot π h p A B) :
    relExceptSlot π h p (upsert π h it A) (upsert π h it B) := by
  induction A generalizing B with
  | nil =>
    cases B with
    | nil => exact relExceptSlot_refl π h p _
    | cons b B => exact False.elim hrel
  | cons a A ih =>
    cases B with
    | nil => exact False.elim hrel
    | cons b B =>
      rw [relExceptSlot_cons_iff] at hrel
      by_cases ha : a.hdr = h ∧ π a.item = p
      · rw [if_pos ha] at hrel
        obtain ⟨hb1, hb2, hAB⟩ := hrel
        by_cases hπ : π it = p
        · have hma : a.hdr = h ∧ π a.item = π it := ⟨ha.1, ha.2.trans hπ.symm⟩
          have hmb : b.hdr = h ∧ π b.item = π it := ⟨hb1.symm.trans ha.1, hb2.trans hπ.symm⟩
          have hnew : (⟨a.hdr, it⟩ : MDoc H I).hdr = h ∧
              π (⟨a.hdr, it⟩ : MDoc H I).item = p := ⟨ha.1, hπ⟩
          rw [upsert_cons, upsert_cons, if_pos hma, if_pos hmb, relExceptSlot_cons_iff,
            if_pos hnew]
          exact ⟨hb1, hπ, hAB⟩
        · have hma : ¬ (a.hdr = h ∧ π a.item = π it) := fun hc => hπ (hc.2.symm.trans ha.2)
          have hmb : ¬ (b.hdr = h ∧ π b.item = π it) := fun hc => hπ (hc.2.symm.trans hb2)
          rw [upsert_cons, upsert_cons, if_neg hma, if_neg hmb, relExceptSlot_cons_iff,
            if_pos ha]
          exact ⟨hb1, hb2, by rw [hAB]⟩
      · rw [if_neg ha] at hrel
        obtain ⟨hab, hrel⟩ := hrel
        by_cases hm : a.hdr = h ∧ π a.item = π it
        · have hmb : b.hdr = h ∧ π b.item = π it := hab ▸ hm
          have hnew : ¬ ((⟨a.hdr, it⟩ : MDoc H I).hdr = h ∧
              π (⟨a.hdr, it⟩ : MDoc H I).item = p) := fun hc => ha ⟨hm.1, hm.2.trans hc.2⟩
          rw [upsert_cons, upsert_cons, if_pos hm, if_pos hmb, relExceptSlot_cons_iff,
            if_neg hnew]
          refine ⟨?_, hrel⟩
          rw [hab]
        · have hmb : ¬ (b.hdr = h ∧ π b.item = π it) := hab ▸ hm
          rw [upsert_cons, upsert_cons, if_neg hm, if_neg hmb, relExceptSlot_cons_iff,
            if_neg ha]
          exact ⟨hab, ih B hrel⟩

/-- A whole upsert loop preserves the relation. -/
theorem rel_upsertAll (items : List I) (A B : List (MDoc H I))
    (hrel : relExceptSlot π h p A B) :
    relExceptSlot π h p (upsertAll π h A items) (upsertAll π h B items) := by
  induction items generalizing A B with
  | nil => exact hrel
  | cons it items ih => exact ih _ _ (rel_upsert π h p it A B hrel)

/-- When key `(h, p)` is present, upserting at that key only changes the
distinguished slot: the result is related to the original store. -/
theorem rel_upsert_self (it : I) (hπ : π it = p) (X : List (MDoc H I))
    (hp : (slotItem π h p X).isSome) :
    relExceptSlot π h p X (upsert π h it X) := by
  induction X with
  | nil => simp [slotItem] at hp
  | cons x X ih =>
    by_cases hx : x.hdr = h ∧ π x.item = p
    · have hmx : x.hdr = h ∧ π x.item = π it := ⟨hx.1, hx.2.trans hπ.symm⟩
      rw [upsert_cons, if_pos hmx, relExceptSlot_cons_iff, if_pos hx]
      exact ⟨rfl, hπ, rfl⟩
    · have hmx : ¬ (x.hdr = h ∧ π x.item = π it) := fun hc => hx ⟨hc.1, hc.2.trans hπ⟩
      rw [upsert_cons, if_neg hmx, relExceptSlot_cons_iff, if_neg hx]
      refine ⟨rfl, ih ?_⟩
      rw [slotItem_cons, if_neg hx] at hp
      exact hp

end RelLemmas

section SaturationLemmas

variable {H I P : Type} [DecidableEq H] [DecidableEq P] (π : I → P) (h : H)

theorem lastWith_append_singleton (p : P) (d : I) (items : List I) :
    lastWith π p (items ++ [d]) =
      if π d = p then some d else lastWith π p items := by
  unfold lastWith
  rw [List.filter_append]
  by_cases hd : π d = p
  · rw [if_pos hd]
    have hone : List.filter (fun it => decide (π it = p)) [d] = [d] := by simp [hd]
    rw [hone, List.getLast?_append_cons]
    simp
  · rw [if_neg hd]
    have hnone : List.filter (fun it => decide (π it = p)) [d] = [] := by simp [hd]
    rw [hnone, List.append_nil]

theorem lastWith_eq_some_of_mem (p : P) (e0 : I) (items : List I)
    (he0 : e0 ∈ items) (hπ0 : π e0 = p) :
    ∃ eL, lastWith π p items = some eL ∧ π eL = p := by
  have hfne : items.filter (fun it => decide (π it = p)) ≠ [] := by
    intro hc
    have hmem : e0 ∈ items.filter (fun it => decide (π it = p)) :=
      List.mem_filter.mpr ⟨he0, by simp [hπ0]⟩
    rw [hc] at hmem
    exact absurd hmem (List.not_mem_nil e0)
  refine ⟨(items.filter (fun it => decide (π it = p))).getLast hfne,
    List.getLast?_eq_getLast_of_ne_nil hfne, ?_⟩
  have hmem := List.getLast_mem hfne
  exact of_decide_eq_true (List.mem_filter.mp hmem).2

/-- The store left by one `append_to_mongodb` loop is saturated for its
payload: the first document of each touched key holds the payload's last item
of that key. -/
def saturated (π : I → P) (h : H) (items : List I) (X : List (MDoc H I)) : Prop :=
  ∀ it ∈ items, slotItem π h (π it) X = lastWith π (π it) items

theorem upsertAll_append_singleton (s : List (MDoc H I)) (init : List I) (d : I) :
    upsertAll π h s (init ++ [d]) = upsert π h d (upsertAll π h s init) := by
  unfold upsertAll
  rw [List.foldl_append]
  rfl

theorem saturated_upsertAll (s : List (MDoc H I)) (items : List I) :
    saturated π h items (upsertAll π h s items) := by
  induction items using List.reverseRecOn generalizing s with
  | nil => intro it hit; exact absurd hit (List.not_mem_nil it)
  | append_singleton init d ih =>
    intro it hit
    rw [upsertAll_append_singleton]
    by_cases hπ : π it = π d
    · rw [hπ, slotItem_upsert_self, lastWith_append_singleton, if_pos rfl]
    · rw [slotItem_upsert_other π h d (π it) hπ, lastWith_append_singleton,
        if_neg (fun hc => hπ hc.symm)]
      have hinit : it ∈ init := by
        rcases List.mem_append.mp hit with hmem | hmem
        · exact hmem
        · exact absurd (by rw [List.mem_singleton.mp hmem]) hπ
      exact ih s it hinit

/-- Replaying a payload on a store saturated for it is a no-op. -/
theorem upsertAll_of_saturated (items : List I) (X : List (MDoc H I))
    (hsat : saturated π h items X) : upsertAll π h X items = X := by
  induction items using List.reverseRecOn generalizing X with
  | nil => rfl
  | append_singleton init d ih =>
    have hslotd : slotItem π h (π d) X = some d := by
      have hd := hsat d (by simp)
      rwa [lastWith_append_singleton, if_pos rfl] at hd
    rw [upsertAll_append_singleton]
    by_cases hB : ∃ e ∈ init, π e = π d
    · obtain ⟨e0, he0, hπe0⟩ := hB
      obtain ⟨eLast, heLast, hπeLast⟩ := lastWith_eq_some_of_mem π (π d) e0 init he0 hπe0
      have hrel : relExceptSlot π h (π d) X (upsert π h eLast X) :=
        rel_upsert_self π h (π d) eLast hπeLast X (by rw [hslotd]; rfl)
      have hsat' : saturated π h init (upsert π h eLast X) := by
        intro it hit
        by_cases hπit : π it = π d
        · have h1 : slotItem π h (π d) (upsert π h eLast X) = some eLast := by
            have h0 := slotItem_upsert_self π h eLast X
            rwa [hπeLast] at h0
          rw [hπit, h1, heLast]
        · have h2 : slotItem π h (π it) (upsert π h eLast X) = slotItem π h (π it) X :=
            slotItem_upsert_other π h eLast (π it) (fun hc => hπit (hc.trans hπeLast)) X
          have h3 := hsat it (List.mem_append_left _ hit)
          rw [lastWith_append_singleton, if_neg (fun hc => hπit hc.symm)] at h3
          rw [h2, h3]
      have hpass := rel_upsertAll π h (π d) init X (upsert π h eLast X) hrel
      rw [ih (upsert π h eLast X) hsat'] at hpass
      rw [upsert_eq_of_rel π h (π d) d rfl _ _ hpass,
        upsert_upsert_same π h eLast d hπeLast X, upsert_noop π h d X hslotd]
    · have hnone : ∀ e ∈ init, π e ≠ π d := by push_neg at hB; exact hB
      have hsat' : saturated π h init X := by
        intro it hit
        have h1 := hsat it (List.mem_append_left _ hit)
        rwa [lastWith_append_singleton, if_neg (fun hc => hnone it hit hc.symm)] at h1
      rw [ih X hsat', upsert_noop π h d X hslotd]

/-- Replaying the same payload through the whole `update_one` loop a second
time leaves the store exactly as the first pass left it. -/
theorem upsertAll_idem (s : List (MDoc H I)) (items : List I) :
    upsertAll π h (upsertAll π h s items) items = upsertAll π h s items :=
  upsertAll_of_saturated π h items _ (saturated_upsertAll π h s items)

end SaturationLemmas

section CountLemmas

variable {H I P : Type} [DecidableEq H] [DecidableEq P] (π : I → P)

theorem keyCount_nil (h : H) (p : P) : keyCount π h p ([] : List (MDoc H I)) = 0 := rfl

theorem keyCount_cons (h : H) (p : P) (d : MDoc H I) (s : List (MDoc H I)) :
    keyCount π h p (d :: s) =
      (if d.hdr = h ∧ π d.item = p then 1 else 0) + keyCount π h p s := by
  unfold keyCount
  rw [List.filter_cons]
  by_cases hd : d.hdr = h ∧ π d.item = p
  · simp [hd]
    omega
  · simp [hd]

/-- An upsert at key `(h, π it)` makes its count `max 1` of what it was. -/
theorem keyCount_upsert_self (h : H) (it : I) (s : List (MDoc H I)) :
    keyCount π h (π it) (upsert π h it s) = max 1 (keyCount π h (π it) s) := by
  induction s with
  | nil => simp [upsert, keyCount_cons, keyCount_nil]
  | cons d s ih =>
    by_cases hd : d.hdr = h ∧ π d.item = π it
    · have hnew : (⟨d.hdr, it⟩ : MDoc H I).hdr = h ∧
        π (⟨d.hdr, it⟩ : MDoc H I).item = π it := ⟨hd.1, rfl⟩
      rw [upsert_cons, if_pos hd, keyCount_cons, keyCount_cons, if_pos hnew, if_pos hd]
      omega
    · rw [upsert_cons, if_neg hd, keyCount_cons, keyCount_cons, if_neg hd, ih]
      omega

/-- An upsert leaves the count of every other key (same header) unchanged. -/
theorem keyCount_upsert_other (h : H) (it : I) (p : P) (hne : p ≠ π it)
    (s : List (MDoc H I)) :
    keyCount π h p (upsert π h it s) = keyCount π h p s := by
  induction s with
  | nil =>
    rw [keyCount_nil]
    show keyCount π h p [⟨h, it⟩] = 0
    have hcond : ¬ ((⟨h, it⟩ : MDoc H I).hdr = h ∧ π (⟨h, it⟩ : MDoc H I).item = p) :=
      fun hc => hne hc.2.symm
    rw [keyCount_cons, keyCount_nil, if_neg hcond]
  | cons d s ih =>
    by_cases hd : d.hdr = h ∧ π d.item = π it
    · have hd' : ¬ (d.hdr = h ∧ π d.item = p) := fun hc => hne ((hc.2 ▸ hd.2 : p = π it))
      have hd'' : ¬ ((⟨d.hdr, it⟩ : MDoc H I).hdr = h ∧
          π (⟨d.hdr, it⟩ : MDoc H I).item = p) := fun hc => hne hc.2.symm
      rw [upsert_cons, if_pos hd, keyCount_cons, keyCount_cons, if_neg hd', if_neg hd'']
    · rw [upsert_cons, if_neg hd, keyCount_cons, keyCount_cons, ih]

/-- An upsert leaves the counts of every other header unchanged. -/
theorem keyCount_upsert_hdr (h h' : H) (it : I) (p : P) (hne : h' ≠ h)
    (s : List (MDoc H I)) :
    keyCount π h' p (upsert π h it s) = keyCount π h' p s := by
  induction s with
  | nil =>
    rw [keyCount_nil]
    show keyCount π h' p [⟨h, it⟩] = 0
    have hcond : ¬ ((⟨h, it⟩ : MDoc H I).hdr = h' ∧ π (⟨h, it⟩ : MDoc H I).item = p) :=
      fun hc => hne hc.1.symm
    rw [keyCount_cons, keyCount_nil, if_neg hcond]
  | cons d s ih =>
    by_cases hd : d.hdr = h ∧ π d.item = π it
    · have hdh : d.hdr = h := hd.1
      have hd' : ¬ (d.hdr = h' ∧ π d.item = p) := fun hc => hne (hc.1 ▸ hdh)
      have hd'' : ¬ ((⟨d.hdr, it⟩ : MDoc H I).hdr = h' ∧
          π (⟨d.hdr, it⟩ : MDoc H I).item = p) := fun hc => hne (hc.1 ▸ hdh)
      rw [upsert_cons, if_pos hd, keyCount_cons, keyCount_cons, if_neg hd', if_neg hd'']
    · rw [upsert_cons, if_neg hd, keyCount_cons, keyCount_cons, ih]

/-- Stores in which every identity key owns at most one document.  All stores
produced by the upsert loops alone satisfy this. -/
def atMostOnePerKey (π : I → P) (s : List (MDoc H I)) : Prop :=
  ∀ (h : H) (p : P), keyCount π h p s ≤ 1

theorem atMostOnePerKey_upsert (h : H) (it : I) (s : List (MDoc H I))
    (hs : atMostOnePerKey π s) : atMostOnePerKey π (upsert π h it s) := by
  intro h' p
  by_cases hh : h' = h
  · subst hh
    by_cases hp : p = π it
    · subst hp
      rw [keyCount_upsert_self]
      have := hs h' (π it)
      omega
    · rw [keyCount_upsert_other π h' it p hp]
      exact hs h' p
  · rw [keyCount_upsert_hdr π h h' it p hh]
    exact hs h' p

theorem atMostOnePerKey_upsertAll (h : H) (items : List I) (s : List (MDoc H I))
    (hs : atMostOnePerKey π s) : atMostOnePerKey π (upsertAll π h s items) := by
  induction items generalizing s with
  | nil => exact hs
  | cons it items ih => exact ih _ (atMostOnePerKey_upsert π h it s hs)

theorem keyCount_pos_of_slotItem (h : H) (p : P) (x : I) (s : List (MDoc H I))
    (hslot : slotItem π h p s = some x) : 1 ≤ keyCount π h p s := by
  induction s with
  | nil => exact absurd hslot (by simp [slotItem])
  | cons d s ih =>
    by_cases hd : d.hdr = h ∧ π d.item = p
    · rw [keyCount_cons, if_pos hd]
      omega
    · rw [slotItem_cons, if_neg hd] at hslot
      rw [keyCount_cons, if_neg hd]
      have := ih hslot
      omega

/-- After an upsert loop over a payload containing `it`, a store that started
with at most one document per key holds exactly one document at `it`'s key. -/
theorem keyCount_upsertAll_eq_one (h : H) (it : I) (items : List I)
    (s : List (MDoc H I)) (hit : it ∈ items) (hs : atMostOnePerKey π s) :
    keyCount π h (π it) (upsertAll π h s items) = 1 := by
  obtain ⟨eL, heL, _⟩ := lastWith_eq_some_of_mem π (π it) it items hit rfl
  have hslot := saturated_upsertAll π h s items it hit
  rw [heL] at hslot
  have h1 := keyCount_pos_of_slotItem π h (π it) eL _ hslot
  have h2 := atMostOnePerKey_upsertAll π h items s hs h (π it)
  omega

end CountLemmas

section ConstKey

variable {H I P : Type} [DecidableEq H] [DecidableEq P] (π : I → P) (h : H)

/-- When every item of a payload has the same key part (as in the
whole-document variant, whose filter has no item-level field), the whole loop
collapses to a single upsert of the final item: each `$set` wholly overwrites
the previous one. -/
theorem upsertAll_const_key (p : P) (items : List I) (last : I)
    (hconst : ∀ it ∈ items, π it = p) (hlast : items.getLast? = some last)
    (s : List (MDoc H I)) :
    upsertAll π h s items = upsert π h last s := by
  induction items generalizing s with
  | nil => exact absurd hlast (by simp)
  | cons a tail ih =>
    cases tail with
    | nil =>
      have ha : a = last := by simpa using hlast
      rw [← ha]
      rfl
    | cons b r =>
      have hlast' : (b :: r).getLast? = some last := by
        rwa [List.getLast?_cons_cons] at hlast
      have hconst' : ∀ it ∈ b :: r, π it = p := fun it hit =>
        hconst it (List.mem_cons_of_mem a hit)
      have hmemlast : last ∈ b :: r := by
        obtain ⟨hne, hEq⟩ := List.mem_getLast?_eq_getLast hlast'
        rw [hEq]
        exact List.getLast_mem hne
      have hπa : π a = π last := by
        rw [hconst a (List.mem_cons_self a _), hconst last (List.mem_cons_of_mem a hmemlast)]
      have hstep : upsertAll π h s (a :: b :: r) = upsertAll π h (upsert π h a s) (b :: r) :=
        rfl
      rw [hstep, ih hconst' hlast' (upsert π h a s)]
      exact upsert_upsert_same π h a last hπa s

end ConstKey

/-! ### Instantiation for `streamlit.py` (whole-document records)

`append_to_mongodb` (lines 133-148) runs, for each `item` of
`invoice_data["data"]`,

  `item.update({"username": st.session_state.username})`
  `update_one({invoice_number, invoice_date, vendor_name, username}, {"$set": item}, upsert=True)`

so the filter is the header triple plus the acting username and contains no
item-level field. -/

/-- Header filter fields of the whole-document variant. -/
structure WDHdr where
  invoice_number : String
  invoice_date : String
  vendor_name : String
  deriving DecidableEq

/-- The `$set` payload of the whole-document variant (receipt-level fields of
the documented schema, plus the username written by `item.update`). -/
structure WDItem where
  sub_total : ℚ
  tps : ℚ
  tvq : ℚ
  tax : ℚ
  total_price : ℚ
  discount : ℚ
  username : String
  deriving DecidableEq

/-- Item-borne part of the whole-document filter: just the username. -/
def wdKeyPart (it : WDItem) : String := it.username

/-- The `update_one` loop of `append_to_mongodb` in `streamlit.py` (after its
payload checks pass). -/
def appendMongoWD (h : WDHdr) (u : String) (items : List WDItem)
    (s : List (MDoc WDHdr WDItem)) : List (MDoc WDHdr WDItem) :=
  upsertAll wdKeyPart h s (items.map (fun it => { it with username := u }))

/-! ### Instantiation for `streamlit1.py` (line-item records)

`append_to_mongodb` (lines 127-140) runs, for each `product` of
`invoice_data["data"]`,

  `product.update({"username": st.session_state.username})`
  `update_one({invoice_number, invoice_date, store_name, product_name, username},
              {"$set": product}, upsert=True)`

so the filter is the header triple plus the item's `product_name` and the
acting username. -/

/-- Header filter fields of the line-item variant (no validation, so the
payload values may be null). -/
structure LIHdr where
  invoice_number : Option String
  invoice_date : Option String
  store_name : Option String
  deriving DecidableEq

/-- The `$set` payload of the line-item variant (per-product fields of the
documented schema, plus the username written by `product.update`). -/
structure LIItem where
  product_name : String
  unit_price : ℚ
  quantity : ℚ
  total_price : ℚ
  discount : ℚ
  gstPct : ℚ
  username : String
  deriving DecidableEq

/-- Item-borne part of the line-item filter: product name and username. -/
def liKeyPart (it : LIItem) : String × String := (it.product_name, it.username)

/-- The `update_one` loop of `append_to_mongodb` in `streamlit1.py` (after its
payload check passes). -/
def appendMongoLI (h : LIHdr) (u : String) (items : List LIItem)
    (s : List (MDoc LIHdr LIItem)) : List (MDoc LIHdr LIItem) :=
  upsertAll liKeyPart h s (items.map (fun it => { it with username := u }))

/-! ### Sums of grouped columns

`df.groupby(keys).agg({col: "sum"})` produces one row per distinct key value,
holding the sum of `col` over the rows with that key.  The lemmas here say
that summing those per-key sums over any duplicate-free covering key list
gives back the sum over all rows — the heart of every roll-up equality. -/

theorem sum_map_ite_eq_of_mem {K : Type} [DecidableEq K] (c : K) (v : ℚ) :
    ∀ (ks : List K), c ∉ ks →
      (ks.map (fun k => if c = k then v else 0)).sum = 0 := by
  intro ks
  induction ks with
  | nil => intro _; rfl
  | cons k ks ih =>
    intro hc
    have hck : c ≠ k := fun hck => hc (hck ▸ List.mem_cons_self k ks)
    have hcks : c ∉ ks := fun hm => hc (List.mem_cons_of_mem k hm)
    simp only [List.map_cons, List.sum_cons, if_neg hck, ih hcks, add_zero]

theorem sum_map_single {K : Type} [DecidableEq K] (c : K) (v : ℚ) :
    ∀ (ks : List K), ks.Nodup → c ∈ ks →
      (ks.map (fun k => if c = k then v else 0)).sum = v := by
  intro ks
  induction ks with
  | nil => intro _ hc; exact absurd hc (List.not_mem_nil c)
  | cons k ks ih =>
    intro hnd hc
    by_cases hck : c = k
    · subst hck
      have hnotin : c ∉ ks := (List.nodup_cons.mp hnd).1
      simp only [List.map_cons, List.sum_cons,
        sum_map_ite_eq_of_mem c v ks hnotin, add_zero]
      simp
    · have hcks : c ∈ ks := (List.mem_cons.mp hc).resolve_left hck
      simp only [List.map_cons, List.sum_cons, if_neg hck,
        ih (List.nodup_cons.mp hnd).2 hcks, zero_add]

/-- Partitioning a sum by a key: the per-key group sums, added over any
duplicate-free list of keys covering the rows, equal the ungrouped sum. -/
theorem sum_map_filter_key {α K : Type} [DecidableEq K] (key : α → K) (f : α → ℚ) :
    ∀ (ks : List K) (l : List α), ks.Nodup → (∀ x ∈ l, key x ∈ ks) →
      (ks.map (fun k => ((l.filter (fun x => key x = k)).map f).sum)).sum
        = (l.map f).sum := by
  intro ks l
  induction l with
  | nil =>
    intro _ _
    simp
  | cons x l ih =>
    intro hnd hcov
    have hcov' : ∀ y ∈ l, key y ∈ ks := fun y hy => hcov y (List.mem_cons_of_mem x hy)
    have hsplit : ∀ k : K,
        ((List.filter (fun y => decide (key y = k)) (x :: l)).map f).sum
          = (if key x = k then f x else 0)
            + ((List.filter (fun y => decide (key y = k)) l).map f).sum := by
      intro k
      rw [List.filter_cons]
      by_cases hk : key x = k
      · simp [hk]
      · simp [hk]
    calc (ks.map (fun k => ((List.filter (fun y => decide (key y = k)) (x :: l)).map f).sum)).sum
        = (ks.map (fun k => (if key x = k then f x else 0)
            + ((List.filter (fun y => decide (key y = k)) l).map f).sum)).sum := by
          rw [List.map_congr_left (fun k _ => hsplit k)]
      _ = (ks.map (fun k => if key x = k then f x else 0)).sum
            + (ks.map (fun k => ((List.filter (fun y => decide (key y = k)) l).map f).sum)).sum := by
          rw [List.sum_map_add]
      _ = f x + (l.map f).sum := by
          rw [sum_map_single (key x) (f x) ks hnd (hcov x (List.mem_cons_self x l)),
            ih hnd hcov']
      _ = ((x :: l).map f).sum := by rw [List.map_cons, List.sum_cons]

/-! ### `generate_summary_from_mongodb` in `streamlit.py` (lines 152-218)

The fetched documents become a DataFrame; `to_datetime(..., errors="coerce")`
followed by `.dt.to_period("M")` yields the `year-month` column (`NaT`, here
`none`, when the date does not parse).  Tier 1 groups by
`["year-month", "vendor_name"]` with `dropna=False`; tier 2 groups the tier-1
table by `"year-month"` with pandas' default `dropna=True`, labelled
`"Total for Month"`; tier 3 is a single row aggregating the tier-1 table,
labelled `"All Vendors"` (its assigned `year_month` column is distinct from
the selected `year-month` column, which is left empty for this row). -/

/-- One fetched record as seen by the summary: the derived period bucket
(`none` = unparsable date), the vendor (`none` = missing), and the six summed
columns. -/
structure WDSumRec where
  period : Option String
  vendor : Option String
  sub_total : ℚ
  tps : ℚ
  tvq : ℚ
  tax : ℚ
  total_price : ℚ
  discount : ℚ
  deriving DecidableEq

/-- The six aggregated columns of the summary. -/
structure WDSums where
  sub_total : ℚ
  tps : ℚ
  tvq : ℚ
  tax : ℚ
  total_price : ℚ
  discount : ℚ
  deriving DecidableEq

/-- Column-wise `agg({...: "sum"})` over records. -/
def wdSumsOf (l : List WDSumRec) : WDSums where
  sub_total := (l.map (·.sub_total)).sum
  tps := (l.map (·.tps)).sum
  tvq := (l.map (·.tvq)).sum
  tax := (l.map (·.tax)).sum
  total_price := (l.map (·.total_price)).sum
  discount := (l.map (·.discount)).sum

/-- One row of the three-tier summary table. -/
structure WDRow where
  period : Option String
  vendorLabel : Option String
  sums : WDSums
  deriving DecidableEq

/-- Column-wise `agg({...: "sum"})` over already-aggregated rows. -/
def wdRowSumsOf (rows : List WDRow) : WDSums where
  sub_total := (rows.map (·.sums.sub_total)).sum
  tps := (rows.map (·.sums.tps)).sum
  tvq := (rows.map (·.sums.tvq)).sum
  tax := (rows.map (·.sums.tax)).sum
  total_price := (rows.map (·.sums.total_price)).sum
  discount := (rows.map (·.sums.discount)).sum

/-- The tier-1 grouping key `["year-month", "vendor_name"]`. -/
def wdKey (r : WDSumRec) : Option String × Option String := (r.period, r.vendor)

/-- Distinct tier-1 keys (`dropna=False`: null keys are kept). -/
def wdGroupKeys (rs : List WDSumRec) : List (Option String × Option String) :=
  (rs.map wdKey).dedup

/-- Tier-1 rows: one per `(year-month, vendor_name)` value. -/
def wdGroupRows (rs : List WDSumRec) : List WDRow :=
  (wdGroupKeys rs).map (fun k =>
    ⟨k.1, k.2, wdSumsOf (rs.filter (fun r => wdKey r = k))⟩)

/-- Tier-2 keys: the distinct `year-month` values of the tier-1 table under
pandas' default `dropna=True` — the null bucket is dropped here. -/
def wdMonthKeys (rs : List WDSumRec) : List String :=
  ((wdGroupRows rs).filterMap (·.period)).dedup

/-- Tier-2 rows, labelled `"Total for Month"`. -/
def wdMonthRows (rs : List WDSumRec) : List WDRow :=
  (wdMonthKeys rs).map (fun m =>
    ⟨some m, some "Total for Month",
      wdRowSumsOf ((wdGroupRows rs).filter (fun row => row.period = some m))⟩)

/-- Tier-3 grand-total row, labelled `"All Vendors"`; it aggregates the whole
tier-1 table.  Its `year-month` column is empty (the source assigns a
`year_month` column instead, so the selected `year-month` cell is `NaN`). -/
def wdGrandRow (rs : List WDSumRec) : WDRow :=
  ⟨none, some "All Vendors", wdRowSumsOf (wdGroupRows rs)⟩

/-- The full summary: `None` when no data was found for the user, otherwise
tier-1 rows, then tier-2 rows, then the single grand-total row. -/
def wdSummary (rs : List WDSumRec) : Option (List WDRow) :=
  if rs.isEmpty then none
  else some (wdGroupRows rs ++ wdMonthRows rs ++ [wdGrandRow rs])

section WDSummaryLemmas

/-- Sum of one column over a list of summary rows. -/
def wdColSumRows (rows : List WDRow) (c : WDSums → ℚ) : ℚ :=
  (rows.map (fun row => c row.sums)).sum

/-- A tier-1 column total equals the ungrouped column total over the records. -/
theorem wdGroupRows_colSum (rs : List WDSumRec) (f : WDSumRec → ℚ) (c : WDSums → ℚ)
    (hc : ∀ l, c (wdSumsOf l) = (l.map f).sum) :
    wdColSumRows (wdGroupRows rs) c = (rs.map f).sum := by
  unfold wdColSumRows wdGroupRows
  rw [List.map_map]
  have hpt : ∀ k ∈ wdGroupKeys rs,
      ((fun row : WDRow => c row.sums) ∘ fun k : Option String × Option String =>
        (⟨k.1, k.2, wdSumsOf (rs.filter (fun r => wdKey r = k))⟩ : WDRow)) k
        = ((rs.filter (fun r => wdKey r = k)).map f).sum := fun k _ => hc _
  rw [List.map_congr_left hpt]
  exact sum_map_filter_key wdKey f (wdGroupKeys rs) rs (List.nodup_dedup _)
    (fun x hx => List.mem_dedup.mpr (List.mem_map_of_mem wdKey hx))

/-- The grand-total cell of a column equals the ungrouped column total. -/
theorem wdGrandRow_colSum (rs : List WDSumRec) (f : WDSumRec → ℚ) (c : WDSums → ℚ)
    (hc : ∀ l, c (wdSumsOf l) = (l.map f).sum)
    (hcRow : ∀ rows, c (wdRowSumsOf rows) = wdColSumRows rows c) :
    c (wdGrandRow rs).sums = (rs.map f).sum := by
  show c (wdRowSumsOf (wdGroupRows rs)) = _
  rw [hcRow, wdGroupRows_colSum rs f c hc]

/-- A tier-2 column total equals the column total over the records whose
`invoice_date` parsed — the null bucket is missing from tier 2. -/
theorem wdMonthRows_colSum (rs : List WDSumRec) (f : WDSumRec → ℚ) (c : WDSums → ℚ)
    (hc : ∀ l, c (wdSumsOf l) = (l.map f).sum)
    (hcRow : ∀ rows, c (wdRowSumsOf rows) = wdColSumRows rows c) :
    wdColSumRows (wdMonthRows rs) c
      = ((rs.filter (fun r => r.period.isSome)).map f).sum := by
  unfold wdColSumRows wdMonthRows
  rw [List.map_map]
  have hpt : ∀ m ∈ wdMonthKeys rs,
      ((fun row : WDRow => c row.sums) ∘ fun m : String =>
        (⟨some m, some "Total for Month",
          wdRowSumsOf ((wdGroupRows rs).filter (fun row => row.period = some m))⟩ : WDRow)) m
        = (((wdGroupRows rs).filter (fun row => row.period = some m)).map
            (fun row => c row.sums)).sum := fun m _ => hcRow _
  rw [List.map_congr_left hpt]
  -- Tier-2 sums as a partition of the some-period tier-1 rows.
  have hff : ∀ m : String,
      ((wdGroupRows rs).filter (fun row => row.period.isSome)).filter
          (fun row => row.period = some m)
        = (wdGroupRows rs).filter (fun row => row.period = some m) := by
    intro m
    rw [List.filter_filter]
    apply List.filter_congr
    intro row _
    by_cases hrow : row.period = some m
    · simp [hrow]
    · simp [hrow]
  have hstep1 :
      ((wdMonthKeys rs).map (fun m =>
        (((wdGroupRows rs).filter (fun row => row.period = some m)).map
          (fun row => c row.sums)).sum)).sum
      = (((wdGroupRows rs).filter (fun row => row.period.isSome)).map
          (fun row => c row.sums)).sum := by
    have hpart := sum_map_filter_key (fun row : WDRow => row.period)
      (fun row => c row.sums) ((wdMonthKeys rs).map some)
      ((wdGroupRows rs).filter (fun row => row.period.isSome))
      ((List.nodup_dedup _).map (Option.some_injective _))
      (by
        intro row hrow
        have hmem := List.mem_of_mem_filter hrow
        have hsome : row.period.isSome := (List.mem_filter.mp hrow).2
        obtain ⟨m, hm⟩ := Option.isSome_iff_exists.mp hsome
        have hmk : m ∈ wdMonthKeys rs :=
          List.mem_dedup.mpr (List.mem_filterMap.mpr ⟨row, hmem, hm⟩)
        show row.period ∈ (wdMonthKeys rs).map some
        rw [hm]
        exact List.mem_map_of_mem some hmk)
    rw [List.map_map] at hpart
    have hpt2 : ∀ m ∈ wdMonthKeys rs,
        ((fun k : Option String =>
          ((((wdGroupRows rs).filter (fun row => row.period.isSome)).filter
            (fun row => row.period = k)).map (fun row => c row.sums)).sum) ∘ some) m
        = (((wdGroupRows rs).filter (fun row => row.period = some m)).map
            (fun row => c row.sums)).sum := by
      intro m _
      show ((((wdGroupRows rs).filter (fun row => row.period.isSome)).filter
        (fun row => row.period = some m)).map (fun row => c row.sums)).sum = _
      rw [hff m]
    rw [List.map_congr_left hpt2] at hpart
    exact hpart
  rw [hstep1]
  -- Some-period tier-1 rows as a partition of the some-period records.
  have hrows : (wdGroupRows rs).filter (fun row => row.period.isSome)
      = ((wdGroupKeys rs).filter (fun k => k.1.isSome)).map (fun k =>
          (⟨k.1, k.2, wdSumsOf (rs.filter (fun r => wdKey r = k))⟩ : WDRow)) := by
    unfold wdGroupRows
    rw [List.filter_map]
    rfl
  rw [hrows, List.map_map]
  have hpt3 : ∀ k ∈ (wdGroupKeys rs).filter (fun k => k.1.isSome),
      ((fun row : WDRow => c row.sums) ∘ fun k : Option String × Option String =>
        (⟨k.1, k.2, wdSumsOf (rs.filter (fun r => wdKey r = k))⟩ : WDRow)) k
      = (((rs.filter (fun r => r.period.isSome)).filter
          (fun r => wdKey r = k)).map f).sum := by
    intro k hk
    have hk1 : k.1.isSome := (List.mem_filter.mp hk).2
    have hflt : (rs.filter (fun r => r.period.isSome)).filter (fun r => wdKey r = k)
        = rs.filter (fun r => wdKey r = k) := by
      rw [List.filter_filter]
      apply List.filter_congr
      intro r _
      by_cases hr : wdKey r = k
      · have : r.period.isSome := by
          have : r.period = k.1 := congrArg Prod.fst hr
          rw [this]
          exact hk1
        simp [hr, this]
      · simp [hr]
    rw [hflt]
    exact hc _
  rw [List.map_congr_left hpt3]
  exact sum_map_filter_key wdKey f ((wdGroupKeys rs).filter (fun k => k.1.isSome))
    (rs.filter (fun r => r.period.isSome))
    ((List.nodup_dedup _).filter _)
    (by
      intro x hx
      have hxrs := List.mem_of_mem_filter hx
      have hxsome : x.period.isSome := (List.mem_filter.mp hx).2
      refine List.mem_filter.mpr ⟨List.mem_dedup.mpr (List.mem_map_of_mem wdKey hxrs), ?_⟩
      simpa [wdKey] using hxsome)

end WDSummaryLemmas

/-! ### `generate_summary_from_mongodb` in `streamlit1.py` (lines 141-168)

The fetched documents become a DataFrame; `year-month` is derived as in the
other variant; `gst_amount = total_price * gst% / 100` is computed inside the
summary; then `df.groupby("year-month")` — with pandas' default
`dropna=True` — sums quantity, total_price, discount and gst_amount.
Records whose date did not parse have a `NaT` key and are dropped. -/

/-- One fetched line-item record as seen by the summary.  `rawTax` stands for
any tax-amount value the source payload may have carried into the stored
document; the summary never reads it. -/
structure LISumRec where
  period : Option String
  quantity : ℚ
  total_price : ℚ
  discount : ℚ
  gstPct : ℚ
  rawTax : ℚ
  deriving DecidableEq

/-- The aggregated columns of the line-item summaries. -/
structure LISums where
  quantity : ℚ
  total_price : ℚ
  discount : ℚ
  gst_amount : ℚ
  deriving DecidableEq

/-- Column-wise sums, with `gst_amount` recomputed from `total_price` and
`gst%` (`streamlit1.py` line 158). -/
def liSumsOf (l : List LISumRec) : LISums where
  quantity := (l.map (·.quantity)).sum
  total_price := (l.map (·.total_price)).sum
  discount := (l.map (·.discount)).sum
  gst_amount := (l.map (fun r => r.total_price * r.gstPct / 100)).sum

/-- `df.groupby("year-month").agg(...)` with pandas' default `dropna=True`:
one aggregated row per parsed period; rows whose period is `NaT` belong to no
group and are dropped. -/
def groupByMonth {α β : Type} (period : α → Option String) (agg : List α → β)
    (l : List α) : List (String × β) :=
  ((l.filterMap period).dedup).map
    (fun m => (m, agg (l.filter (fun r => period r = some m))))

/-- The summary rows of `streamlit1.py`: one row per parsed month. -/
def liSummaryRows (rs : List LISumRec) : List (String × LISums) :=
  groupByMonth (·.period) liSumsOf rs

/-- `generate_summary_from_mongodb` returns `None` when the user has no data. -/
def liSummary (rs : List LISumRec) : Option (List (String × LISums)) :=
  if rs.isEmpty then none else some (liSummaryRows rs)

/-- Erase the payload-borne tax amount of a record (all summary-relevant
fields kept). -/
def eraseRawTax (r : LISumRec) : LISumRec := { r with rawTax := 0 }

/-! ### `append_product_data_to_excel` and
`generate_summary_from_product_details` in `script.py` (lines 95-154)

The local variant appends normalized rows to the `Product Details` sheet:
`to_datetime`/`to_period` derive `month_year`, `gst_amount` is computed as
`total_price * gst% / 100`, the discount-reconciliation rule runs, in-batch
duplicate rows are dropped (`df.drop_duplicates()`, keeping first
occurrences), and the rows are written below the sheet's current last row.
Nothing is matched against rows already in the sheet. -/

/-- One raw extracted product row (header fields denormalized onto it by
`process_invoice`). -/
structure RawRow where
  invoice_date : String
  invoice_number : String
  store_name : String
  product_name : String
  unit_price : ℚ
  quantity : ℚ
  total_price : ℚ
  discount : ℚ
  gstPct : ℚ
  deriving DecidableEq

/-- One normalized row of the `Product Details` sheet. -/
structure XRow where
  period : Option String
  invoice_date : String
  invoice_number : String
  store_name : String
  product_name : String
  unit_price : ℚ
  quantity : ℚ
  total_price : ℚ
  discount : ℚ
  gstPct : ℚ
  gst_amount : ℚ
  deriving DecidableEq

/-- The per-row normalization of `append_product_data_to_excel`:
`month_year`, `gst_amount`, and the reconciled discount.  `dateParse` stands
for `pd.to_datetime(..., format="%m/%d/%Y", errors="coerce")` followed by
`.dt.to_period("M")`. -/
def normalizeRow (dateParse : String → Option String) (r : RawRow) : XRow where
  period := dateParse r.invoice_date
  invoice_date := r.invoice_date
  invoice_number := r.invoice_number
  store_name := r.store_name
  product_name := r.product_name
  unit_price := r.unit_price
  quantity := r.quantity
  total_price := r.total_price
  discount := reconcileDiscount r.unit_price r.quantity r.total_price r.discount
  gstPct := r.gstPct
  gst_amount := r.total_price * r.gstPct / 100

/-- Faithful batch-level model of `script.py` line 108,
`df.loc[mask, 'discount'] = np.where(...)`: `some` of the new discount column
when pandas accepts the assignment (mask selects every row, or no row — the
tolerated no-op), `none` for the `ValueError` pandas raises when the mask
selects a proper nonempty subset of the rows while the `np.where` array has
full-frame length.  On the error, `append_product_data_to_excel` appends
nothing. -/
def locMaskAssignDiscounts (rows : List RawRow) : Option (List ℚ) :=
  if ∀ r ∈ rows, r.unit_price * r.quantity > r.total_price ∧ r.discount = 0 then
    some (rows.map (fun r =>
      if |r.unit_price * r.quantity - r.total_price| < 1 / 1000 then 0
      else r.unit_price * r.quantity - r.total_price))
  else if ∀ r ∈ rows, ¬ (r.unit_price * r.quantity > r.total_price ∧ r.discount = 0) then
    some (rows.map (·.discount))
  else none

/-- `df.drop_duplicates()`: keep the first occurrence of each duplicated row. -/
def dropDupFirst {α : Type} [DecidableEq α] : List α → List α
  | [] => []
  | a :: l => a :: dropDupFirst (l.filter (fun b => b ≠ a))
termination_by l => l.length
decreasing_by
  simp only [List.length_cons]
  exact Nat.lt_succ_of_le (List.length_filter_le _ _)

/-- `append_product_data_to_excel`: normalize and dedup the incoming batch,
then append it below whatever the sheet already holds (the sheet is `[]` when
the file does not exist yet).  No cross-call dedup and no upsert. -/
def appendProductDataToExcel (dateParse : String → Option String)
    (sheet : List XRow) (rows : List RawRow) : List XRow :=
  sheet ++ dropDupFirst (rows.map (normalizeRow dateParse))

/-- Column-wise sums of `generate_summary_from_product_details`
(`gst_amount` is read from the sheet column computed at append time). -/
def scriptSumsOf (l : List XRow) : LISums where
  quantity := (l.map (·.quantity)).sum
  total_price := (l.map (·.total_price)).sum
  discount := (l.map (·.discount)).sum
  gst_amount := (l.map (·.gst_amount)).sum

/-- `generate_summary_from_product_details`: `df.groupby('month_year')` with
pandas' default `dropna=True` — rows with an unparsed date are dropped. -/
def scriptSummaryRows (sheet : List XRow) : List (String × LISums) :=
  groupByMonth (·.period) scriptSumsOf sheet

/-! ### Per-user store access (`streamlit.py` lines 152-158 and 308-319,
`streamlit1.py` lines 141-143 and 227-238)

Summary generation fetches `find({"username": username})`; deletion runs
`delete_one({"_id": ObjectId(...), "username": username})`. -/

/-- A stored document with its MongoDB object id and owner. -/
structure StoreDoc (α : Type) where
  oid : ℕ
  username : String
  payload : α
  deriving DecidableEq

/-- `find({"username": username})`. -/
def findByUsername {α : Type} (u : String) (s : List (StoreDoc α)) : List (StoreDoc α) :=
  s.filter (fun d => d.username = u)

/-- `delete_one(filter)`: remove the first matching document, if any. -/
def deleteOne {α : Type} (p : StoreDoc α → Bool) : List (StoreDoc α) → List (StoreDoc α)
  | [] => []
  | d :: s => if p d then s else d :: deleteOne p s

/-- `delete_product`: delete by object id, but only when the acting user owns
the document. -/
def deleteProduct {α : Type} (pid : ℕ) (u : String) (s : List (StoreDoc α)) :
    List (StoreDoc α) :=
  deleteOne (fun d => d.oid = pid && d.username = u) s

/-- `generate_summary_from_mongodb(username)` in `streamlit.py`: fetch the
user's documents, then build the three-tier summary from them. -/
def summaryForUser (u : String) (s : List (StoreDoc WDSumRec)) : Option (List WDRow) :=
  wdSummary ((findByUsername u s).map (·.payload))

/-- `generate_summary_from_mongodb(username)` in `streamlit1.py`: fetch the
user's documents, then build the by-month summary from them. -/
def liSummaryForUser (u : String) (s : List (StoreDoc LISumRec)) :
    Option (List (String × LISums)) :=
  liSummary ((findByUsername u s).map (·.payload))

/-! ### Characterizations of `find` / `rfind` / the slice -/

section PyStringLemmas

theorem pyFindAux_eq_some (c : Char) :
    ∀ (s : List Char) (i : ℕ), pyFindAux c s = some i →
      i < s.length ∧ s[i]? = some c ∧ ∀ k < i, s[k]? ≠ some c := by
  intro s
  induction s with
  | nil => intro i hi; exact absurd hi (by simp [pyFindAux])
  | cons a l ih =>
    intro i hi
    by_cases hac : a = c
    · rw [pyFindAux, if_pos hac] at hi
      obtain rfl : (0 : ℕ) = i := Option.some_inj.mp hi
      exact ⟨Nat.succ_pos _, by simp [hac], fun k hk => absurd hk (Nat.not_lt_zero k)⟩
    · rw [pyFindAux, if_neg hac] at hi
      obtain ⟨j, hj, rfl⟩ := Option.map_eq_some'.mp hi
      obtain ⟨hjlen, hjc, hjmin⟩ := ih j hj
      refine ⟨by simpa using Nat.succ_lt_succ hjlen, by simpa using hjc, ?_⟩
      intro k hk
      cases k with
      | zero => simpa using fun hc => hac hc
      | succ k' => simpa using hjmin k' (Nat.lt_of_succ_lt_succ hk)

theorem pyFindAux_eq_some_of_first (c : Char) :
    ∀ (s : List Char) (i : ℕ), s[i]? = some c → (∀ k < i, s[k]? ≠ some c) →
      pyFindAux c s = some i := by
  intro s
  induction s with
  | nil => intro i hi _; exact absurd hi (by simp)
  | cons a l ih =>
    intro i hi hmin
    cases i with
    | zero =>
      have hac : a = c := by simpa using hi
      rw [pyFindAux, if_pos hac]
    | succ i' =>
      have hac : ¬ a = c := by
        intro hc
        exact hmin 0 (Nat.succ_pos i') (by simpa using hc)
      rw [pyFindAux, if_neg hac]
      have hmin' : ∀ k < i', l[k]? ≠ some c := fun k hk =>
        by simpa using hmin (k + 1) (Nat.succ_lt_succ hk)
      rw [ih i' (by simpa using hi) hmin']
      rfl

/-- `rfind` characterization: if `c` sits at `j` and nowhere later, the
reversed search finds exactly the mirrored index. -/
theorem pyFindAux_reverse_of_last (c : Char) (s : List Char) (j : ℕ)
    (hj : s[j]? = some c) (hlast : ∀ m, j < m → s[m]? ≠ some c) :
    pyFindAux c s.reverse = some (s.length - 1 - j) := by
  have hjlen : j < s.length := (List.getElem?_eq_some.mp hj).1
  apply pyFindAux_eq_some_of_first
  · have hrev : s.reverse[s.length - 1 - j]? = s[s.length - 1 - (s.length - 1 - j)]? := by
      have hlt : s.length - 1 - j < s.length := by omega
      simpa using List.getElem?_reverse hlt
    rw [hrev]
    have : s.length - 1 - (s.length - 1 - j) = j := by omega
    rw [this]
    exact hj
  · intro k hk
    have hklen : k < s.length := by omega
    have hrev : s.reverse[k]? = s[s.length - 1 - k]? := by
      simpa using List.getElem?_reverse hklen
    rw [hrev]
    exact hlast (s.length - 1 - k) (by omega)

/-- Inverse direction: whatever the reversed search finds is the last
occurrence. -/
theorem pyFindAux_reverse_elim (c : Char) (s : List Char) (k : ℕ)
    (hk : pyFindAux c s.reverse = some k) :
    k < s.length ∧ s[s.length - 1 - k]? = some c ∧
      ∀ m, s.length - 1 - k < m → m < s.length → s[m]? ≠ some c := by
  obtain ⟨hklen, hkc, hkmin⟩ := pyFindAux_eq_some (c := c) s.reverse k hk
  rw [List.length_reverse] at hklen
  have hrev : s.reverse[k]? = s[s.length - 1 - k]? := by
    simpa using List.getElem?_reverse hklen
  refine ⟨hklen, by rw [← hrev]; exact hkc, ?_⟩
  intro m hm hmlen
  have hmk : s.length - 1 - m < k := by omega
  have hrev' : s.reverse[s.length - 1 - m]? = s[s.length - 1 - (s.length - 1 - m)]? := by
    have : s.length - 1 - m < s.length := by omega
    simpa using List.getElem?_reverse this
  have := hkmin (s.length - 1 - m) hmk
  rw [hrev'] at this
  have hmm : s.length - 1 - (s.length - 1 - m) = m := by omega
  rwa [hmm] at this

theorem pySlice_nat_nat (s : List Char) (i j : ℕ) (hi : i < s.length)
    (hj : j < s.length) :
    pySlice s (i : ℤ) ((j : ℤ) + 1) = (s.drop i).take (j + 1 - i) := by
  unfold pySlice
  dsimp only
  have h1 : ¬ ((i : ℤ) < 0) := by omega
  have h2 : ¬ ((j : ℤ) + 1 < 0) := by omega
  rw [if_neg h1, if_neg h2]
  have h3 : min (i : ℤ).toNat s.length = i := by omega
  have h4 : min ((j : ℤ) + 1).toNat s.length = j + 1 := by
    have : ((j : ℤ) + 1).toNat = j + 1 := by omega
    omega
  rw [h3, h4]

theorem pySlice_none_none (s : List Char) : pySlice s (-1) 0 = [] := by
  unfold pySlice
  dsimp only
  have h2 : ¬ ((0 : ℤ) < 0) := by omega
  rw [if_pos (by omega : (-1 : ℤ) < 0), if_neg h2]
  have : min (0 : ℤ).toNat s.length = 0 := by simp
  rw [this]
  simp

theorem pySlice_pos_zero (s : List Char) (i : ℕ) : pySlice s (i : ℤ) 0 = [] := by
  unfold pySlice
  dsimp only
  have h1 : ¬ ((i : ℤ) < 0) := by omega
  have h2 : ¬ ((0 : ℤ) < 0) := by omega
  rw [if_neg h1, if_neg h2]
  have : min (0 : ℤ).toNat s.length = 0 := by simp
  rw [this]
  simp

theorem take_one_drop (c : Char) :
    ∀ (s : List Char) (j : ℕ), s[j]? = some c → (s.drop j).take 1 = [c] := by
  intro s
  induction s with
  | nil => intro j hj; exact absurd hj (by simp)
  | cons a l ih =>
    intro j hj
    cases j with
    | zero =>
      have : a = c := by simpa using hj
      simp [this]
    | succ j' =>
      have : l[j']? = some c := by simpa using hj
      simpa using ih j' this

theorem pySlice_neg_one (s : List Char) (j : ℕ) (hj : j < s.length)
    (hc : s[j]? = some '}') :
    pySlice s (-1) ((j : ℤ) + 1) = if j = s.length - 1 then ['}'] else [] := by
  unfold pySlice
  dsimp only
  have hn : 1 ≤ s.length := by omega
  have h2 : ¬ ((j : ℤ) + 1 < 0) := by omega
  rw [if_pos (by omega : (-1 : ℤ) < 0), if_neg h2]
  have ha : ((s.length : ℤ) + (-1)).toNat = s.length - 1 := by omega
  have hb : min ((j : ℤ) + 1).toNat s.length = j + 1 := by omega
  rw [ha, hb]
  by_cases hja : j = s.length - 1
  · rw [if_pos hja, hja]
    have : s.length - 1 + 1 - (s.length - 1) = 1 := by omega
    rw [this]
    exact take_one_drop '}' s (s.length - 1) (hja ▸ hc)
  · rw [if_neg hja]
    have : j + 1 - (s.length - 1) = 0 := by omega
    rw [this]
    simp

end PyStringLemmas

/-! ### Facts about the month-only `groupby` summaries -/

section GroupByMonthLemmas

variable {α β : Type}

/-- Records with an unparsable date are invisible to the month-only summary:
removing them changes nothing. -/
theorem groupByMonth_filter_isSome (period : α → Option String) (agg : List α → β)
    (l : List α) :
    groupByMonth period agg (l.filter (fun r => (period r).isSome))
      = groupByMonth period agg l := by
  unfold groupByMonth
  have hkeys : (l.filter (fun r => (period r).isSome)).filterMap period
      = l.filterMap period := by
    induction l with
    | nil => rfl
    | cons r l ih =>
      cases hr : period r with
      | none => simp [List.filter_cons, List.filterMap_cons, hr, ih]
      | some m => simp [List.filter_cons, List.filterMap_cons, hr, ih]
  rw [hkeys]
  apply List.map_congr_left
  intro m _
  have hfil : (l.filter (fun r => (period r).isSome)).filter
        (fun r => period r = some m)
      = l.filter (fun r => period r = some m) := by
    rw [List.filter_filter]
    apply List.filter_congr
    intro r _
    by_cases hr : period r = some m
    · simp [hr]
    · simp [hr]
  rw [hfil]

/-- A column total of the month-only summary is the column total over the
records whose date parsed. -/
theorem groupByMonth_colSum (period : α → Option String) (agg : List α → β)
    (l : List α) (f : α → ℚ) (c : β → ℚ)
    (hc : ∀ xs, c (agg xs) = (xs.map f).sum) :
    ((groupByMonth period agg l).map (fun row => c row.2)).sum
      = ((l.filter (fun r => (period r).isSome)).map f).sum := by
  unfold groupByMonth
  rw [List.map_map]
  have hpt : ∀ m ∈ (l.filterMap period).dedup,
      ((fun row : String × β => c row.2) ∘ fun m =>
        (m, agg (l.filter (fun r => period r = some m)))) m
      = (((l.filter (fun r => (period r).isSome)).filter
          (fun r => period r = some m)).map f).sum := by
    intro m _
    have hfil : (l.filter (fun r => (period r).isSome)).filter
          (fun r => period r = some m)
        = l.filter (fun r => period r = some m) := by
      rw [List.filter_filter]
      apply List.filter_congr
      intro r _
      by_cases hr : period r = some m
      · simp [hr]
      · simp [hr]
    rw [hfil]
    exact hc _
  rw [List.map_congr_left hpt]
  have hpart := sum_map_filter_key period f ((l.filterMap period).dedup.map some)
    (l.filter (fun r => (period r).isSome))
    ((List.nodup_dedup _).map (Option.some_injective _))
    (by
      intro x hx
      have hmem := List.mem_of_mem_filter hx
      have hsome : (period x).isSome := (List.mem_filter.mp hx).2
      obtain ⟨m, hm⟩ := Option.isSome_iff_exists.mp hsome
      have hmk : m ∈ (l.filterMap period).dedup :=
        List.mem_dedup.mpr (List.mem_filterMap.mpr ⟨x, hmem, hm⟩)
      show period x ∈ ((l.filterMap period).dedup).map some
      rw [hm]
      exact List.mem_map_of_mem some hmk)
  rw [List.map_map] at hpart
  have hpt2 : ∀ m ∈ (l.filterMap period).dedup,
      ((fun k : Option String =>
        (((l.filter (fun r => (period r).isSome)).filter
          (fun r => period r = k)).map f).sum) ∘ some) m
      = (((l.filter (fun r => (period r).isSome)).filter
          (fun r => period r = some m)).map f).sum := fun m _ => rfl
  rw [List.map_congr_left hpt2] at hpart
  exact hpart

end GroupByMonthLemmas

/-! ### Facts about per-user fetch and delete -/

section TenantLemmas

variable {α : Type}

theorem deleteOne_cons (p : StoreDoc α → Bool) (d : StoreDoc α) (s : List (StoreDoc α)) :
    deleteOne p (d :: s) = if p d then s else d :: deleteOne p s := rfl

/-- `delete_product` never touches another user's documents: the other user's
fetch is unchanged. -/
theorem findByUsername_deleteProduct (pid : ℕ) (u v : String) (hne : v ≠ u)
    (s : List (StoreDoc α)) :
    findByUsername v (deleteProduct pid u s) = findByUsername v s := by
  unfold deleteProduct
  induction s with
  | nil => rfl
  | cons d s ih =>
    by_cases hd : (d.oid = pid && d.username = u) = true
    · rw [deleteOne_cons, if_pos hd]
      have hdu : d.username = u := by
        have hb := hd
        simp only [Bool.and_eq_true, decide_eq_true_eq] at hb
        exact hb.2
      have hdv : ¬ (d.username = v) := fun hc => hne (hc ▸ hdu)
      unfold findByUsername
      rw [List.filter_cons, if_neg (by simpa using hdv)]
    · rw [deleteOne_cons, if_neg hd]
      unfold findByUsername at ih ⊢
      rw [List.filter_cons, List.filter_cons]
      by_cases hdv : d.username = v
      · simp only [hdv]
        simp [ih]
      · simp only [if_neg (by simpa using hdv : ¬ (decide (d.username = v) = true))]
        exact ih

/-- Any document `delete_product` removes belongs to the acting user: the
store minus the user's own documents is untouched. -/
theorem deleteProduct_subset_user (pid : ℕ) (u : String) (s : List (StoreDoc α)) :
    s.filter (fun d => d.username ≠ u) =
      (deleteProduct pid u s).filter (fun d => d.username ≠ u) := by
  unfold deleteProduct
  induction s with
  | nil => rfl
  | cons d s ih =>
    by_cases hd : (d.oid = pid && d.username = u) = true
    · rw [deleteOne_cons, if_pos hd]
      have hdu : d.username = u := by
        have hb := hd
        simp only [Bool.and_eq_true, decide_eq_true_eq] at hb
        exact hb.2
      rw [List.filter_cons, if_neg (by simp [hdu])]
    · rw [deleteOne_cons, if_neg hd]
      rw [List.filter_cons, List.filter_cons]
      by_cases hdv : d.username = u
      · simp only [if_neg (by simp [hdv] : ¬ (decide (¬ d.username = u) = true))]
        exact ih
      · simp only [if_pos (by simp [hdv] : decide (¬ d.username = u) = true)]
        rw [ih]

end TenantLemmas

/-! ### Assembled behaviour of the response parser -/

section ExtractLemmas

/-- When a `'{'` occurs at `i` (and nowhere earlier) and a `'}'` occurs at `j`
(and nowhere later) with `i < j`, the parser hands `json.loads` exactly the
inclusive substring between them. -/
theorem extractParse_first_last (jparse : List Char → Option Json) (s : List Char)
    (i j : ℕ)
    (hic : s[i]? = some '{') (hifirst : ∀ k < i, s[k]? ≠ some '{')
    (hjc : s[j]? = some '}') (hjlast : ∀ m, j < m → s[m]? ≠ some '}')
    (hij : i < j) :
    extractParse jparse s = jparse ((s.drop i).take (j + 1 - i)) := by
  have hilen : i < s.length := (List.getElem?_eq_some.mp hic).1
  have hjlen : j < s.length := (List.getElem?_eq_some.mp hjc).1
  unfold extractParse cleanedResult
  have hf : pyFind '{' s = (i : ℤ) := by
    unfold pyFind
    rw [pyFindAux_eq_some_of_first '{' s i hic hifirst]
  have hr : pyRfind '}' s = (j : ℤ) := by
    unfold pyRfind
    rw [pyFindAux_reverse_of_last '}' s j hjc hjlast]
    have harith : s.length - 1 - (s.length - 1 - j) = j := by omega
    show ((s.length - 1 - (s.length - 1 - j) : ℕ) : ℤ) = (j : ℤ)
    rw [harith]
  rw [hf, hr, pySlice_nat_nat s i j hilen hjlen]

/-- When the response has no `'{'` strictly before a `'}'`, the slice is `""`
or `"}"`, and `json.loads` fails on both. -/
theorem extractParse_no_pair (jparse : List Char → Option Json) (s : List Char)
    (hnopair : ¬ ∃ i j : ℕ, i < j ∧ s[i]? = some '{' ∧ s[j]? = some '}')
    (hE : jparse [] = none) (hB : jparse ['}'] = none) :
    extractParse jparse s = none := by
  unfold extractParse cleanedResult pyFind pyRfind
  cases hf : pyFindAux '{' s with
  | none =>
    cases hr : pyFindAux '}' s.reverse with
    | none =>
      have harith : (-1 : ℤ) + 1 = 0 := by omega
      show jparse (pySlice s (-1) (-1 + 1)) = none
      rw [harith, pySlice_none_none]
      exact hE
    | some k =>
      obtain ⟨hklen, hkc, _⟩ := pyFindAux_reverse_elim '}' s k hr
      show jparse (pySlice s (-1) ((s.length - 1 - k : ℕ) + 1)) = none
      rw [pySlice_neg_one s (s.length - 1 - k) (by omega) hkc]
      by_cases hj : s.length - 1 - k = s.length - 1
      · rw [if_pos hj]
        exact hB
      · rw [if_neg hj]
        exact hE
  | some i =>
    obtain ⟨hilen, hic, _⟩ := pyFindAux_eq_some '{' s i hf
    cases hr : pyFindAux '}' s.reverse with
    | none =>
      have harith : (-1 : ℤ) + 1 = 0 := by omega
      show jparse (pySlice s (i : ℕ) (-1 + 1)) = none
      rw [harith, pySlice_pos_zero]
      exact hE
    | some k =>
      obtain ⟨hklen, hkc, _⟩ := pyFindAux_reverse_elim '}' s k hr
      have hji : s.length - 1 - k ≤ i := by
        by_contra hcon
        push_neg at hcon
        exact hnopair ⟨i, s.length - 1 - k, hcon, hic, hkc⟩
      have hjne : s.length - 1 - k ≠ i := by
        intro hc
        rw [hc, hic] at hkc
        exact absurd (Option.some_inj.mp hkc) (by decide)
      show jparse (pySlice s (i : ℕ) ((s.length - 1 - k : ℕ) + 1)) = none
      rw [pySlice_nat_nat s i (s.length - 1 - k) hilen (by omega)]
      have harith : s.length - 1 - k + 1 - i = 0 := by omega
      rw [harith]
      simpa using hE

end ExtractLemmas

/-! ### The line-item summary never reads a payload-borne tax amount -/

section RawTaxLemmas

theorem liSumsOf_map_eraseRawTax (l : List LISumRec) :
    liSumsOf (l.map eraseRawTax) = liSumsOf l := by
  unfold liSumsOf
  have hq : (l.map eraseRawTax).map (fun r => r.quantity) = l.map (fun r => r.quantity) := by
    rw [List.map_map]
    exact List.map_congr_left (fun r _ => rfl)
  have ht : (l.map eraseRawTax).map (fun r => r.total_price)
      = l.map (fun r => r.total_price) := by
    rw [List.map_map]
    exact List.map_congr_left (fun r _ => rfl)
  have hd : (l.map eraseRawTax).map (fun r => r.discount) = l.map (fun r => r.discount) := by
    rw [List.map_map]
    exact List.map_congr_left (fun r _ => rfl)
  have hg : (l.map eraseRawTax).map (fun r => r.total_price * r.gstPct / 100)
      = l.map (fun r => r.total_price * r.gstPct / 100) := by
    rw [List.map_map]
    exact List.map_congr_left (fun r _ => rfl)
  rw [hq, ht, hd, hg]

/-- Two stores equal up to the payload-borne tax amount yield the same
`streamlit1.py` summary: the summary recomputes `gst_amount` and never reads
the stored tax value. -/
theorem liSummaryRows_eraseRawTax (rs : List LISumRec) :
    liSummaryRows (rs.map eraseRawTax) = liSummaryRows rs := by
  unfold liSummaryRows groupByMonth
  have hkeys : (rs.map eraseRawTax).filterMap (fun r => r.period)
      = rs.filterMap (fun r => r.period) := by
    rw [List.filterMap_map]
    rfl
  rw [hkeys]
  apply List.map_congr_left
  intro m _
  have hfil : (rs.map eraseRawTax).filter (fun r => decide (r.period = some m))
      = (rs.filter (fun r => decide (r.period = some m))).map eraseRawTax := by
    rw [List.filter_map]
    rfl
  rw [hfil, liSumsOf_map_eraseRawTax]

end RawTaxLemmas

/-! ## The claims -/

/-- On a uniform-mask batch (all rows masked, or none) the vectorized
assignment of `script.py` line 108 succeeds and yields exactly the row-wise
intended values `reconcileDiscount` — the regime in which the row-wise Excel
model of this file is used. -/
theorem locMaskAssignDiscounts_uniform (rows : List RawRow)
    (huni : (∀ r ∈ rows, r.unit_price * r.quantity > r.total_price ∧ r.discount = 0)
      ∨ (∀ r ∈ rows, ¬ (r.unit_price * r.quantity > r.total_price ∧ r.discount = 0))) :
    locMaskAssignDiscounts rows
      = some (rows.map (fun r =>
          reconcileDiscount r.unit_price r.quantity r.total_price r.discount)) := by
  unfold locMaskAssignDiscounts
  rcases huni with hall | hnone
  · rw [if_pos hall]
    congr 1
    apply List.map_congr_left
    intro r hr
    rw [reconcileDiscount, if_pos (hall r hr)]
  · by_cases hfirst : ∀ r ∈ rows, r.unit_price * r.quantity > r.total_price ∧ r.discount = 0
    · rw [if_pos hfirst]
      congr 1
      apply List.map_congr_left
      intro r hr
      rw [reconcileDiscount, if_pos (hfirst r hr)]
    · rw [if_neg hfirst, if_pos hnone]
      congr 1
      apply List.map_congr_left
      intro r hr
      rw [reconcileDiscount, if_neg (hnone r hr)]

/-- A row the reconciliation mask selects: implicit discount `20 - 15 = 5`. -/
def mixedRowA : RawRow := ⟨"01/02/2024", "INV1", "Shop", "Apple", 10, 2, 15, 0, 0⟩

/-- A row the mask does not select: `3 * 1` does not exceed `3`. -/
def mixedRowB : RawRow := ⟨"01/02/2024", "INV1", "Shop", "Banana", 3, 1, 3, 0, 0⟩

/-- C2: the claimed row-wise reconciliation is the evident intent of
`script.py` line 108 — the `np.where` right-hand side computes exactly the
claimed value for every row, and each of the two rows below alone receives it
(`5` for the implicitly discounted row, unchanged `0` for the other) — but
the right-hand side has full-frame length, so on any batch mixing a
reconciled row with a non-reconciled one pandas rejects the
`df.loc[mask, 'discount']` assignment with `ValueError`, the exception
escapes `append_product_data_to_excel`, and nothing is appended at all. -/
theorem claim_C2_discount_reconciliation_bug :
    locMaskAssignDiscounts [mixedRowA, mixedRowB] = none
    ∧ locMaskAssignDiscounts [mixedRowA] = some [5]
    ∧ locMaskAssignDiscounts [mixedRowB] = some [0]
    ∧ reconcileDiscount 10 2 15 0 = 5
    ∧ reconcileDiscount 3 1 3 0 = 0 := by
  have hmaskA : mixedRowA.unit_price * mixedRowA.quantity > mixedRowA.total_price
      ∧ mixedRowA.discount = 0 := ⟨by norm_num [mixedRowA], rfl⟩
  have hmaskB : ¬ (mixedRowB.unit_price * mixedRowB.quantity > mixedRowB.total_price
      ∧ mixedRowB.discount = 0) := by
    intro hc
    have hb := hc.1
    norm_num [mixedRowB] at hb
  refine ⟨?_, ?_, ?_, ?_, ?_⟩
  · unfold locMaskAssignDiscounts
    rw [if_neg (fun h => hmaskB (h mixedRowB (by simp))),
      if_neg (fun h => h mixedRowA (by simp) hmaskA)]
  · have h := locMaskAssignDiscounts_uniform [mixedRowA]
      (Or.inl (fun r hr => by rw [List.mem_singleton] at hr; rw [hr]; exact hmaskA))
    rw [h]
    have hval : reconcileDiscount mixedRowA.unit_price mixedRowA.quantity
        mixedRowA.total_price mixedRowA.discount = 5 := by
      rw [reconcileDiscount, if_pos hmaskA, if_neg (by norm_num [mixedRowA])]
      norm_num [mixedRowA]
    rw [List.map_singleton, hval]
  · have h := locMaskAssignDiscounts_uniform [mixedRowB]
      (Or.inr (fun r hr => by rw [List.mem_singleton] at hr; rw [hr]; exact hmaskB))
    rw [h]
    have hval : reconcileDiscount mixedRowB.unit_price mixedRowB.quantity
        mixedRowB.total_price mixedRowB.discount = 0 := by
      rw [reconcileDiscount, if_neg hmaskB]
      rfl
    rw [List.map_singleton, hval]
  · rw [reconcileDiscount, if_pos ⟨by norm_num, rfl⟩, if_neg (by norm_num)]
    norm_num
  · rw [reconcileDiscount, if_neg (fun hc => by norm_num at hc)]

/-- C10: every store read and delete is filtered by the acting username: the
summary of either web variant depends only on the user's own fetch, delete
touches no other user's documents, and therefore the summary produced for one
user is identical across any two stores that differ only in records owned by
other users. -/
theorem claim_C10_tenant_noninterference :
    (∀ (u : String) (s₁ s₂ : List (StoreDoc WDSumRec)),
      findByUsername u s₁ = findByUsername u s₂ →
      summaryForUser u s₁ = summaryForUser u s₂)
    ∧ (∀ (u : String) (s₁ s₂ : List (StoreDoc LISumRec)),
      findByUsername u s₁ = findByUsername u s₂ →
      liSummaryForUser u s₁ = liSummaryForUser u s₂)
    ∧ (∀ (pid : ℕ) (u v : String), v ≠ u → ∀ (s : List (StoreDoc WDSumRec)),
      findByUsername v (deleteProduct pid u s) = findByUsername v s)
    ∧ (∀ (pid : ℕ) (u : String) (s : List (StoreDoc WDSumRec)),
      s.filter (fun d => d.username ≠ u)
        = (deleteProduct pid u s).filter (fun d => d.username ≠ u))
    ∧ (∀ (pid : ℕ) (u v : String), v ≠ u → ∀ (s : List (StoreDoc WDSumRec)),
      summaryForUser v (deleteProduct pid u s) = summaryForUser v s) := by
  refine ⟨?_, ?_, ?_, ?_, ?_⟩
  · intro u s₁ s₂ hf
    unfold summaryForUser
    rw [hf]
  · intro u s₁ s₂ hf
    unfold liSummaryForUser
    rw [hf]
  · intro pid u v hne s
    exact findByUsername_deleteProduct pid u v hne s
  · intro pid u s
    exact deleteProduct_subset_user pid u s
  · intro pid u v hne s
    unfold summaryForUser
    rw [findByUsername_deleteProduct pid u v hne s]

/-- A document owned by `alice`. -/
def aliceDoc : StoreDoc WDSumRec :=
  ⟨1, "alice", ⟨some "2024-01", some "VendA", 1, 1, 1, 1, 5, 0⟩⟩

/-- A document owned by `bob`. -/
def bobDoc : StoreDoc WDSumRec :=
  ⟨2, "bob", ⟨some "2024-02", some "VendB", 2, 2, 2, 2, 7, 0⟩⟩

/-- Witness for C10: two stores differing only in `bob`'s document give
`alice` the same summary, and `bob`'s delete leaves `alice`'s fetch alone. -/
theorem claim_C10_tenant_noninterference_witness :
    summaryForUser "alice" [aliceDoc, bobDoc] = summaryForUser "alice" [aliceDoc]
    ∧ findByUsername "alice" (deleteProduct 2 "bob" [aliceDoc, bobDoc])
        = findByUsername "alice" [aliceDoc, bobDoc] := by
  constructor
  · exact claim_C10_tenant_noninterference.1 "alice" [aliceDoc, bobDoc] [aliceDoc] rfl
  · exact claim_C10_tenant_noninterference.2.2.1 2 "bob" "alice" (by decide)
      [aliceDoc, bobDoc]

/-- C4: with `json.loads` abstracted as any parser `jparse` that rejects the
empty string and the lone `"}"` (as JSON does), the parser of
`extract_invoice_data` returns `jparse` of the substring from the first `'{'`
to the last `'}'` inclusive whenever such a pair exists (prose around it is
ignored, and an unparsable substring yields the `None` failure), and fails
with the `None` failure — the `MalformedResponseError` of the specification —
on every string with no `'{'` preceding a `'}'`. -/
theorem claim_C4_parser_contract (jparse : List Char → Option Json)
    (hE : jparse [] = none) (hB : jparse ['}'] = none) :
    (∀ (s : List Char) (i j : ℕ),
      s[i]? = some '{' → (∀ k < i, s[k]? ≠ some '{') →
      s[j]? = some '}' → (∀ m, j < m → s[m]? ≠ some '}') →
      i < j →
      extractParse jparse s = jparse ((s.drop i).take (j + 1 - i)))
    ∧ (∀ s : List Char,
      (¬ ∃ i j : ℕ, i < j ∧ s[i]? = some '{' ∧ s[j]? = some '}') →
      extractParse jparse s = none) :=
  ⟨fun s i j hic hifirst hjc hjlast hij =>
    extractParse_first_last jparse s i j hic hifirst hjc hjlast hij,
   fun s hnopair => extractParse_no_pair jparse s hnopair hE hB⟩

/-- A stub stand-in for `json.loads` in the witness: accepts exactly the
two-character object `"{}"`. -/
def jstub : List Char → Option Json :=
  fun l => if l = ['{', '}'] then some (Json.obj []) else none

/-- Witness for C4: prose around `"{}"` is ignored and parsed; a response
without braces fails. -/
theorem claim_C4_parser_contract_witness :
    extractParse jstub ['h', 'i', '{', '}', '!'] = some (Json.obj [])
    ∧ extractParse jstub ['n', 'o', 'p', 'e'] = none := by
  constructor
  · have h := (claim_C4_parser_contract jstub rfl rfl).1 ['h', 'i', '{', '}', '!'] 2 3
      (by decide) (by decide)
      (by decide)
      (by
        intro m hm
        by_cases h5 : m < 5
        · interval_cases m <;> decide
        · rw [List.getElem?_eq_none (by simpa using Nat.le_of_not_lt h5)]
          simp)
      (by decide)
    rw [h]
    rfl
  · apply (claim_C4_parser_contract jstub rfl rfl).2
    rintro ⟨i, j, hij, hic, hjc⟩
    have hi4 : i < 4 := (List.getElem?_eq_some.mp hic).1
    interval_cases i <;> exact absurd hic (by decide)

/-- The blurry-image response the prompt of `streamlit.py` asks the model to
produce. -/
def blurryPayload : Json :=
  Json.obj [("error", Json.str "The image is blurry and cannot be processed.")]

/-- A payload that merely lacks a `"data"` field, with no error signal. -/
def dataLessPayload : Json := Json.obj [("note", Json.str "nothing extracted")]

/-- Counterexample to C5: the explicit error payload is `not` given a distinct
`ContentRejectedError`; `append_to_mongodb` sends it down the very same
no-data early return as a benign payload that simply lacks a `"data"` field,
so the error signal is not distinguished and not propagated distinctly. -/
theorem claim_C5_content_rejection_counterexample :
    appendToMongodbChecks blurryPayload = WDCheck.noData
    ∧ appendToMongodbChecks dataLessPayload = WDCheck.noData := by
  constructor <;> rfl

/-- C5 (amended): an explicit error payload parses successfully, reaches
`append_to_mongodb`, and takes the generic no-data early return — the same
outcome as any payload without a `"data"` key — so the `update_one` loop is
never reached and the store is untouched; no distinct `ContentRejectedError`
exists.  The document is skipped without retry: the batch maps every response
to exactly one outcome, independently. -/
theorem claim_C5_content_rejection_amended :
    (∀ msg : String,
      appendToMongodbChecks (Json.obj [("error", Json.str msg)]) = WDCheck.noData)
    ∧ (∀ payload : Json, payload.hasKey "data" = false →
      appendToMongodbChecks payload ≠ WDCheck.proceed (wdDataItems payload))
    ∧ (∀ (jparse : List Char → Option Json) (r₁ r₂ : List (List Char)),
      uploadBatch jparse (r₁ ++ r₂) = uploadBatch jparse r₁ ++ uploadBatch jparse r₂) := by
  refine ⟨?_, ?_, ?_⟩
  · intro msg
    rfl
  · intro payload hkey
    unfold appendToMongodbChecks
    rw [hkey]
    by_cases htr : payload.truthy
    · simp [htr]
    · simp [htr]
  · intro jparse r₁ r₂
    unfold uploadBatch
    exact List.map_append _ r₁ r₂

/-- Witness for C5 (amended): the blurry payload takes the no-data return,
hence never the upsert branch. -/
theorem claim_C5_content_rejection_witness :
    appendToMongodbChecks blurryPayload
      ≠ WDCheck.proceed (wdDataItems blurryPayload) :=
  claim_C5_content_rejection_amended.2.1 blurryPayload rfl

/-- A payload with `invoice_number` and `invoice_date` present but no vendor. -/
def noVendorPayload : Json :=
  Json.obj [("invoice_number", Json.str "I1"),
            ("invoice_date", Json.str "01/02/2024"),
            ("data", Json.arr [])]

/-- Counterexample to C6: the claim says validation fails only when all three
header fields are missing, yet `streamlit.py` raises (`ValueError`, reported
as a validation error) on a payload that has `invoice_number` and
`invoice_date` and lacks only `vendor_name`. -/
theorem claim_C6_validation_strictness_counterexample :
    appendToMongodbChecks noVendorPayload = WDCheck.missingEssential
    ∧ optTruthy (noVendorPayload.get "invoice_number") = true
    ∧ optTruthy (noVendorPayload.get "invoice_date") = true := by
  refine ⟨rfl, rfl, rfl⟩

/-- C6 (amended): there is no configurable strictness flag; the two variants
simply disagree.  For a truthy payload with a `"data"` key, `streamlit.py`'s
`append_to_mongodb` raises its validation error iff ANY of `vendor_name`,
`invoice_number`, `invoice_date` is missing or falsy, while `streamlit1.py`'s
performs no header validation at all and always proceeds to the upsert loop. -/
theorem claim_C6_validation_strictness_amended (payload : Json)
    (htruthy : payload.truthy = true) (hdata : payload.hasKey "data" = true) :
    (appendToMongodbChecks payload = WDCheck.missingEssential ↔
      (optTruthy (payload.get "vendor_name") = false
        ∨ optTruthy (payload.get "invoice_number") = false
        ∨ optTruthy (payload.get "invoice_date") = false))
    ∧ appendToMongodbChecksLI payload = some (wdDataItems payload) := by
  constructor
  · unfold appendToMongodbChecks
    rw [htruthy, hdata]
    by_cases hv : optTruthy (payload.get "vendor_name")
    · by_cases hn : optTruthy (payload.get "invoice_number")
      · by_cases hd : optTruthy (payload.get "invoice_date")
        · simp [hv, hn, hd]
        · simp [hv, hn, hd]
      · simp [hv, hn]
    · simp [hv]
  · unfold appendToMongodbChecksLI
    rw [htruthy, hdata]
    rfl

/-- Witness for C6 (amended): on the vendor-less payload the strict variant
reports the validation failure and the lenient variant proceeds. -/
theorem claim_C6_validation_strictness_witness :
    appendToMongodbChecks noVendorPayload = WDCheck.missingEssential
    ∧ appendToMongodbChecksLI noVendorPayload = some [] := by
  have h := claim_C6_validation_strictness_amended noVendorPayload rfl rfl
  exact ⟨h.1.mpr (Or.inl rfl), h.2⟩

/-- A line-item record whose `invoice_date` failed to parse. -/
def unknownDateRec : LISumRec := ⟨none, 3, 5, 0, 10, 0⟩

/-- Counterexample to C8: in `streamlit1.py` a record with an unparsable date
is placed in no bucket at all — `groupby("year-month")` with pandas' default
`dropna=True` silently drops it, so the summary of a store holding only that
record has no rows whatsoever, rather than a null/"unknown" row. -/
theorem claim_C8_unknown_date_counterexample :
    unknownDateRec.period = none
    ∧ unknownDateRec.quantity = 3
    ∧ liSummaryRows [unknownDateRec] = []
    ∧ liSummary [unknownDateRec] = some [] := by
  refine ⟨rfl, rfl, rfl, rfl⟩

/-- C8 (amended): only the whole-document variant keeps a null bucket, and
only at its vendor-level tier (`dropna=False` there): an unparsable-date
record yields a group row with a null period.  The line-item variants
(`streamlit1.py` and `script.py`) group with pandas' default `dropna=True`,
so records with unparsable dates are silently invisible to their summaries:
deleting them changes no summary row. -/
theorem claim_C8_unknown_date_bucketing_amended :
    (∀ (rs : List WDSumRec) (r : WDSumRec), r ∈ rs → r.period = none →
      ∃ row ∈ wdGroupRows rs, row.period = none)
    ∧ (∀ rs : List LISumRec,
      liSummaryRows (rs.filter (fun r => r.period.isSome)) = liSummaryRows rs)
    ∧ (∀ sheet : List XRow,
      scriptSummaryRows (sheet.filter (fun r => r.period.isSome))
        = scriptSummaryRows sheet) := by
  refine ⟨?_, ?_, ?_⟩
  · intro rs r hr hper
    have hkey : (none, r.vendor) ∈ wdGroupKeys rs := by
      unfold wdGroupKeys
      refine List.mem_dedup.mpr ?_
      have := List.mem_map_of_mem wdKey hr
      rwa [show wdKey r = (none, r.vendor) from by rw [wdKey, hper]] at this
    refine ⟨⟨none, r.vendor,
      wdSumsOf (rs.filter (fun x => wdKey x = (none, r.vendor)))⟩, ?_, rfl⟩
    unfold wdGroupRows
    exact List.mem_map_of_mem _ hkey
  · intro rs
    exact groupByMonth_filter_isSome (fun r => r.period) liSumsOf rs
  · intro sheet
    exact groupByMonth_filter_isSome (fun r => r.period) scriptSumsOf sheet

/-- Witness for C8 (amended): the whole-document tier-1 table really shows a
null-period row for an unparsable date. -/
theorem claim_C8_unknown_date_bucketing_witness :
    ∃ row ∈ wdGroupRows [(⟨none, some "VendA", 1, 1, 1, 1, 5, 0⟩ : WDSumRec)],
      row.period = none :=
  claim_C8_unknown_date_bucketing_amended.1 [⟨none, some "VendA", 1, 1, 1, 1, 5, 0⟩]
    ⟨none, some "VendA", 1, 1, 1, 1, 5, 0⟩ (List.mem_singleton.mpr rfl) rfl

/-- A whole-document record carrying an extracted tax of `7` on a
`total_price` of `100`, with no tax rate anywhere in the record. -/
def extractedTaxRec : WDSumRec := ⟨some "2024-01", some "VendA", 0, 0, 0, 7, 100, 0⟩

/-- Counterexample to C7: in the whole-document variant the tax used by the
summary is the extracted `tax` field itself (here `7`), not
`total_price * tax_rate_percent / 100` recomputed by a normalizer — there is
no rate in this schema, and with the data model's default rate `0` the
recomputation would give `0 ≠ 7`. -/
theorem claim_C7_derived_tax_counterexample :
    (wdGrandRow [extractedTaxRec]).sums.tax = 7
    ∧ (7 : ℚ) ≠ extractedTaxRec.total_price * 0 / 100 := by
  constructor
  · have h := wdGrandRow_colSum [extractedTaxRec] (fun r => r.tax) (fun ss => ss.tax)
      (fun l => rfl) (fun rows => rfl)
    have h' : (wdGrandRow [extractedTaxRec]).sums.tax
        = (List.map (fun r => r.tax) [extractedTaxRec]).sum := h
    rw [h']
    show ((7 : ℚ) + 0) = 7
    norm_num
  · show (7 : ℚ) ≠ 100 * 0 / 100
    norm_num

/-- C7 (amended): the line-item variants derive the summed tax:
`gst_amount = total_price * gst% / 100` is recomputed (at summary time in
`streamlit1.py`, at append time in `script.py`) and a payload-borne tax value
is never read.  The whole-document variant instead trusts the extracted `tax`
field and sums it as-is. -/
theorem claim_C7_derived_tax_amended :
    (∀ rs : List LISumRec, liSummaryRows (rs.map eraseRawTax) = liSummaryRows rs)
    ∧ (∀ rs : List LISumRec,
      ((liSummaryRows rs).map (fun row => row.2.gst_amount)).sum
        = ((rs.filter (fun r => r.period.isSome)).map
            (fun r => r.total_price * r.gstPct / 100)).sum)
    ∧ (∀ (dp : String → Option String) (rows : List RawRow) (x : XRow),
      x ∈ rows.map (normalizeRow dp) → x.gst_amount = x.total_price * x.gstPct / 100)
    ∧ (∀ rs : List WDSumRec, (wdGrandRow rs).sums.tax = (rs.map (·.tax)).sum) := by
  refine ⟨?_, ?_, ?_, ?_⟩
  · exact liSummaryRows_eraseRawTax
  · intro rs
    exact groupByMonth_colSum (fun r => r.period) liSumsOf rs
      (fun r => r.total_price * r.gstPct / 100) (fun ss => ss.gst_amount)
      (fun xs => rfl)
  · intro dp rows x hx
    obtain ⟨r, _, rfl⟩ := List.mem_map.mp hx
    rfl
  · intro rs
    exact wdGrandRow_colSum rs (fun r => r.tax) (fun ss => ss.tax)
      (fun l => rfl) (fun rows => rfl)

/-- Witness for C7 (amended): a stored line-item record with a stray tax value
of `99` contributes `5 * 10 / 100` to the summed gst, not `99`; and a concrete
normalized Excel row carries `gst_amount = total_price * gst% / 100`. -/
theorem claim_C7_derived_tax_witness :
    ((liSummaryRows [(⟨some "2024-01", 3, 5, 0, 10, 99⟩ : LISumRec)]).map
        (fun row => row.2.gst_amount)).sum = 5 * 10 / 100
    ∧ (normalizeRow (fun _ => none) (⟨"x", "I", "S", "P", 1, 2, 3, 0, 5⟩ : RawRow)).gst_amount
        = (normalizeRow (fun _ => none) (⟨"x", "I", "S", "P", 1, 2, 3, 0, 5⟩ : RawRow)).total_price
          * (normalizeRow (fun _ => none) (⟨"x", "I", "S", "P", 1, 2, 3, 0, 5⟩ : RawRow)).gstPct / 100 := by
  constructor
  · have h := claim_C7_derived_tax_amended.2.1
      [(⟨some "2024-01", 3, 5, 0, 10, 99⟩ : LISumRec)]
    rw [h]
    show ((5 : ℚ) * 10 / 100 + 0) = 5 * 10 / 100
    norm_num
  · exact claim_C7_derived_tax_amended.2.2.1 (fun _ => none)
      [⟨"x", "I", "S", "P", 1, 2, 3, 0, 5⟩] _
      (List.mem_map_of_mem _ (List.mem_singleton.mpr rfl))

/-- C9: the whole-document upsert filter is the header triple plus the acting
username and carries no item-level field, so (i) a store with at most one
document per key keeps that invariant across any `append_to_mongodb` call,
(ii) the whole loop collapses to a single upsert of the payload's final item —
each successive item overwrites the previous one at the single key — and
(iii) the surviving document at that key holds exactly the last item's fields,
and the key then owns exactly one document. -/
theorem claim_C9_whole_document_key_collapse (h : WDHdr) (u : String)
    (items : List WDItem) (s : List (MDoc WDHdr WDItem)) :
    (atMostOnePerKey wdKeyPart s → atMostOnePerKey wdKeyPart (appendMongoWD h u items s))
    ∧ (∀ last : WDItem, items.getLast? = some last →
        appendMongoWD h u items s
          = upsert wdKeyPart h { last with username := u } s
        ∧ slotItem wdKeyPart h u (appendMongoWD h u items s)
          = some { last with username := u }
        ∧ (atMostOnePerKey wdKeyPart s →
            keyCount wdKeyPart h u (appendMongoWD h u items s) = 1)) := by
  constructor
  · intro hinv
    exact atMostOnePerKey_upsertAll wdKeyPart h _ s hinv
  · intro last hlast
    have hconst : ∀ it ∈ items.map (fun it => { it with username := u }),
        wdKeyPart it = u := by
      intro it hit
      obtain ⟨it0, _, rfl⟩ := List.mem_map.mp hit
      rfl
    have hlast' : (items.map (fun it => { it with username := u })).getLast?
        = some { last with username := u } := by
      rw [List.getLast?_map, hlast]
      rfl
    have hcollapse : appendMongoWD h u items s
        = upsert wdKeyPart h { last with username := u } s :=
      upsertAll_const_key wdKeyPart h u _ _ hconst hlast' s
    refine ⟨hcollapse, ?_, ?_⟩
    · rw [hcollapse]
      have hslot := slotItem_upsert_self wdKeyPart h { last with username := u } s
      exact hslot
    · intro hinv
      have hmem : { last with username := u }
          ∈ items.map (fun it => { it with username := u }) := by
        have hmem0 : last ∈ items := by
          obtain ⟨hne, hEq⟩ := List.mem_getLast?_eq_getLast hlast
          rw [hEq]
          exact List.getLast_mem hne
        exact List.mem_map_of_mem _ hmem0
      have := keyCount_upsertAll_eq_one wdKeyPart h { last with username := u } _ s hmem hinv
      exact this

/-- Two distinct items of one whole-document payload. -/
def wdItemA : WDItem := ⟨10, 1, 2, 3, 50, 0, ""⟩

/-- The second, overwriting item of the same payload. -/
def wdItemB : WDItem := ⟨20, 4, 5, 9, 80, 2, ""⟩

/-- Witness for C9: appending a two-item payload to an empty store leaves one
document, holding the second item's fields. -/
theorem claim_C9_whole_document_key_collapse_witness :
    appendMongoWD ⟨"I1", "01/02/2024", "VendA"⟩ "alice" [wdItemA, wdItemB] []
      = upsert wdKeyPart ⟨"I1", "01/02/2024", "VendA"⟩
          { wdItemB with username := "alice" } []
    ∧ keyCount wdKeyPart ⟨"I1", "01/02/2024", "VendA"⟩ "alice"
        (appendMongoWD ⟨"I1", "01/02/2024", "VendA"⟩ "alice" [wdItemA, wdItemB] []) = 1 := by
  have h := (claim_C9_whole_document_key_collapse ⟨"I1", "01/02/2024", "VendA"⟩ "alice"
    [wdItemA, wdItemB] []).2 wdItemB rfl
  exact ⟨h.1, h.2.2 (fun h' p => by rw [keyCount_nil]; omega)⟩

/-- A whole-document record whose `invoice_date` did not parse. -/
def badWD : WDSumRec := ⟨none, some "VendA", 1, 1, 1, 1, 5, 1⟩

/-- Counterexample to C3: with one unparsable-date record the group rows sum
`total_price` to `5` (the null bucket is kept at tier 1, `dropna=False`) and
so does the grand total, but the period-total tier — built by a `groupby`
with pandas' default `dropna=True` — has no row at all, summing to `0`.  The
claimed three-way equality fails. -/
theorem claim_C3_rollup_counterexample :
    wdColSumRows (wdMonthRows [badWD]) (fun ss => ss.total_price) = 0
    ∧ wdColSumRows (wdGroupRows [badWD]) (fun ss => ss.total_price) = 5
    ∧ (wdGrandRow [badWD]).sums.total_price = 5
    ∧ (5 : ℚ) ≠ 0 := by
  refine ⟨rfl, ?_, ?_, by norm_num⟩
  · have h : wdColSumRows (wdGroupRows [badWD]) (fun ss => ss.total_price)
        = (List.map (fun r => r.total_price) [badWD]).sum :=
      wdGroupRows_colSum [badWD] (fun r => r.total_price) (fun ss => ss.total_price)
        (fun l => rfl)
    rw [h]
    show ((5 : ℚ) + 0) = 5
    norm_num
  · have h : (wdGrandRow [badWD]).sums.total_price
        = (List.map (fun r => r.total_price) [badWD]).sum :=
      wdGrandRow_colSum [badWD] (fun r => r.total_price) (fun ss => ss.total_price)
        (fun l => rfl) (fun rows => rfl)
    rw [h]
    show ((5 : ℚ) + 0) = 5
    norm_num

/-- The six summed columns of the whole-document summary, as record/row
accessor pairs. -/
def wdColumnAccessors : List ((WDSumRec → ℚ) × (WDSums → ℚ)) :=
  [(fun r => r.sub_total, fun ss => ss.sub_total),
   (fun r => r.tps, fun ss => ss.tps),
   (fun r => r.tvq, fun ss => ss.tvq),
   (fun r => r.tax, fun ss => ss.tax),
   (fun r => r.total_price, fun ss => ss.total_price),
   (fun r => r.discount, fun ss => ss.discount)]

/-- C3 (amended): for every non-empty record set (whose vendors do not use
the reserved label), the summary holds exactly one grand-total row labeled
`"All Vendors"`, and for each of the six summed columns the group rows' total
equals the grand-total cell; the period-total rows' total also equals both,
provided every record's `invoice_date` parsed — the tier-2 `groupby` drops
the null bucket, so with an unparsable date tier 2 falls short of the other
two tiers. -/
theorem claim_C3_rollup_consistency_amended (rs : List WDSumRec) (hne : rs ≠ [])
    (hlabel : ∀ r ∈ rs, r.vendor ≠ some "All Vendors") :
    (∃ rows, wdSummary rs = some rows
      ∧ (rows.filter (fun row => row.vendorLabel = some "All Vendors")).length = 1)
    ∧ (∀ fc ∈ wdColumnAccessors,
        wdColSumRows (wdGroupRows rs) fc.2 = fc.2 (wdGrandRow rs).sums
        ∧ ((∀ r ∈ rs, r.period.isSome) →
            wdColSumRows (wdMonthRows rs) fc.2 = wdColSumRows (wdGroupRows rs) fc.2)) := by
  constructor
  · refine ⟨wdGroupRows rs ++ wdMonthRows rs ++ [wdGrandRow rs], ?_, ?_⟩
    · unfold wdSummary
      rw [if_neg (by simpa [List.isEmpty_iff] using hne)]
    · rw [List.filter_append, List.filter_append, List.length_append, List.length_append]
      have hgrp : (wdGroupRows rs).filter
          (fun row => row.vendorLabel = some "All Vendors") = [] := by
        apply List.filter_eq_nil_iff.mpr
        intro row hrow
        unfold wdGroupRows at hrow
        obtain ⟨k, hk, rfl⟩ := List.mem_map.mp hrow
        have hk' : k ∈ rs.map wdKey := List.mem_dedup.mp hk
        obtain ⟨r, hr, rfl⟩ := List.mem_map.mp hk'
        simpa using hlabel r hr
      have hmon : (wdMonthRows rs).filter
          (fun row => row.vendorLabel = some "All Vendors") = [] := by
        apply List.filter_eq_nil_iff.mpr
        intro row hrow
        unfold wdMonthRows at hrow
        obtain ⟨m, _, rfl⟩ := List.mem_map.mp hrow
        simp
      rw [hgrp, hmon]
      rfl
  · have main : ∀ (f : WDSumRec → ℚ) (c : WDSums → ℚ),
        (∀ l, c (wdSumsOf l) = (l.map f).sum) →
        (∀ rows, c (wdRowSumsOf rows) = wdColSumRows rows c) →
        wdColSumRows (wdGroupRows rs) c = c (wdGrandRow rs).sums
        ∧ ((∀ r ∈ rs, r.period.isSome) →
            wdColSumRows (wdMonthRows rs) c = wdColSumRows (wdGroupRows rs) c) := by
      intro f c hc hcRow
      have h1 : wdColSumRows (wdGroupRows rs) c = (rs.map f).sum :=
        wdGroupRows_colSum rs f c hc
      have h2 : c (wdGrandRow rs).sums = (rs.map f).sum :=
        wdGrandRow_colSum rs f c hc hcRow
      refine ⟨by rw [h1, h2], ?_⟩
      intro hall
      have hfilter : rs.filter (fun r => r.period.isSome) = rs :=
        List.filter_eq_self.mpr (fun a ha => by simpa using hall a ha)
      have h3 := wdMonthRows_colSum rs f c hc hcRow
      rw [hfilter] at h3
      rw [h3, h1]
    intro fc hfc
    simp only [wdColumnAccessors, List.mem_cons, List.not_mem_nil, or_false] at hfc
    rcases hfc with rfl | rfl | rfl | rfl | rfl | rfl
    · exact main _ _ (fun l => rfl) (fun rows => rfl)
    · exact main _ _ (fun l => rfl) (fun rows => rfl)
    · exact main _ _ (fun l => rfl) (fun rows => rfl)
    · exact main _ _ (fun l => rfl) (fun rows => rfl)
    · exact main _ _ (fun l => rfl) (fun rows => rfl)
    · exact main _ _ (fun l => rfl) (fun rows => rfl)

/-- A well-formed whole-document record (date parsed, ordinary vendor). -/
def goodWD : WDSumRec := ⟨some "2024-01", some "VendA", 2, 1, 1, 2, 9, 0⟩

/-- Witness for C3 (amended) on a one-record set whose date parses: the
summary exists with exactly one `"All Vendors"` row and the
`total_price` roll-up agrees across all three tiers. -/
theorem claim_C3_rollup_consistency_witness :
    (∃ rows, wdSummary [goodWD] = some rows
      ∧ (rows.filter (fun row => row.vendorLabel = some "All Vendors")).length = 1)
    ∧ wdColSumRows (wdMonthRows [goodWD]) (fun ss => ss.total_price)
        = wdColSumRows (wdGroupRows [goodWD]) (fun ss => ss.total_price) := by
  have h := claim_C3_rollup_consistency_amended [goodWD] (by simp)
    (by
      intro r hr
      rw [List.mem_singleton] at hr
      subst hr
      simp [goodWD])
  refine ⟨h.1, ?_⟩
  have hmem : ((fun r : WDSumRec => r.total_price), (fun ss : WDSums => ss.total_price))
      ∈ wdColumnAccessors := by
    unfold wdColumnAccessors
    exact List.mem_cons_of_mem _ (List.mem_cons_of_mem _ (List.mem_cons_of_mem _
      (List.mem_cons_of_mem _ (List.mem_cons_self _ _))))
  exact (h.2 _ hmem).2
    (by
      intro r hr
      rw [List.mem_singleton] at hr
      subst hr
      rfl)

/-- A date parser stub standing in for pandas `to_datetime`/`to_period` in
the concrete Excel runs. -/
def exDateParse : String → Option String := fun _ => some "2024-01"

/-- One extracted product row, as `process_invoice` hands it to
`append_product_data_to_excel`. -/
def exRawRow : RawRow := ⟨"01/02/2024", "INV1", "Shop", "Apple", 1, 2, 2, 0, 0⟩

theorem dropDupFirst_nil {α : Type} [DecidableEq α] : dropDupFirst ([] : List α) = [] := by
  rw [dropDupFirst]

theorem dropDupFirst_singleton {α : Type} [DecidableEq α] (a : α) :
    dropDupFirst [a] = [a] := by
  rw [dropDupFirst]
  simp [dropDupFirst_nil]

/-- Counterexample to C1: the local variant's `append_product_data_to_excel`
is NOT idempotent.  Submitting the identical extraction twice leaves TWO rows
at the identity key (`drop_duplicates` only dedups within one batch; the
sheet append matches nothing already stored) and doubles the quantity sum. -/
theorem claim_C1_upsert_idempotence_counterexample :
    ((appendProductDataToExcel exDateParse
        (appendProductDataToExcel exDateParse [] [exRawRow]) [exRawRow]).filter
      (fun r => r.invoice_number = "INV1" && r.invoice_date = "01/02/2024"
        && r.store_name = "Shop" && r.product_name = "Apple")).length = 2
    ∧ ((appendProductDataToExcel exDateParse
          (appendProductDataToExcel exDateParse [] [exRawRow]) [exRawRow]).map
        (fun r => r.quantity)).sum
      ≠ ((appendProductDataToExcel exDateParse [] [exRawRow]).map
          (fun r => r.quantity)).sum := by
  have h1 : appendProductDataToExcel exDateParse [] [exRawRow]
      = [normalizeRow exDateParse exRawRow] := by
    unfold appendProductDataToExcel
    rw [List.map_singleton, dropDupFirst_singleton]
    rfl
  have h2 : appendProductDataToExcel exDateParse [normalizeRow exDateParse exRawRow]
      [exRawRow] = [normalizeRow exDateParse exRawRow, normalizeRow exDateParse exRawRow] := by
    unfold appendProductDataToExcel
    rw [List.map_singleton, dropDupFirst_singleton]
    rfl
  rw [h1, h2]
  constructor
  · rfl
  · have hq : (normalizeRow exDateParse exRawRow).quantity = 2 := rfl
    simp only [List.map_cons, List.map_nil, List.sum_cons, List.sum_nil, hq]
    norm_num

/-- C1 (amended): re-submitting an identical extraction is idempotent for the
MongoDB `update_one(..., upsert=True)` loops of both web variants — the store
after the second `append_to_mongodb` equals the store after the first, the
identity key of each submitted item then holds exactly one record (given the
at-most-one-per-key store invariant, which appends preserve), and hence every
aggregate of the store is unchanged.  The local Excel variant is NOT
idempotent: its second call appends the whole (batch-deduplicated) row set
again below the sheet. -/
theorem claim_C1_upsert_idempotence_amended :
    (∀ (h : WDHdr) (u : String) (items : List WDItem) (s : List (MDoc WDHdr WDItem)),
      appendMongoWD h u items (appendMongoWD h u items s) = appendMongoWD h u items s)
    ∧ (∀ (h : LIHdr) (u : String) (items : List LIItem) (s : List (MDoc LIHdr LIItem)),
      appendMongoLI h u items (appendMongoLI h u items s) = appendMongoLI h u items s)
    ∧ (∀ (h : LIHdr) (u : String) (items : List LIItem) (s : List (MDoc LIHdr LIItem))
        (it : LIItem), it ∈ items → atMostOnePerKey liKeyPart s →
        keyCount liKeyPart h (liKeyPart { it with username := u })
          (appendMongoLI h u items (appendMongoLI h u items s)) = 1)
    ∧ (∀ (g : List (MDoc LIHdr LIItem) → ℚ) (h : LIHdr) (u : String)
        (items : List LIItem) (s : List (MDoc LIHdr LIItem)),
        g (appendMongoLI h u items (appendMongoLI h u items s))
          = g (appendMongoLI h u items s))
    ∧ (∀ (dp : String → Option String) (sheet : List XRow) (rows : List RawRow),
        appendProductDataToExcel dp (appendProductDataToExcel dp sheet rows) rows
          = appendProductDataToExcel dp sheet rows
              ++ dropDupFirst (rows.map (normalizeRow dp))) := by
  refine ⟨?_, ?_, ?_, ?_, ?_⟩
  · intro h u items s
    exact upsertAll_idem wdKeyPart h s _
  · intro h u items s
    exact upsertAll_idem liKeyPart h s _
  · intro h u items s it hit hinv
    show keyCount liKeyPart h (liKeyPart { it with username := u })
      (upsertAll liKeyPart h (upsertAll liKeyPart h s _) _) = 1
    rw [upsertAll_idem]
    exact keyCount_upsertAll_eq_one liKeyPart h _ _ s (List.mem_map_of_mem _ hit) hinv
  · intro g h u items s
    exact congrArg g (upsertAll_idem liKeyPart h s _)
  · intro dp sheet rows
    rfl

/-- The line-item header of the witness run. -/
def exLIHdr : LIHdr := ⟨some "I1", some "01/02/2024", some "Shop"⟩

/-- The line-item of the witness run. -/
def exLIItem : LIItem := ⟨"Apple", 1, 2, 2, 0, 0, ""⟩

/-- Witness for C1 (amended): after submitting the same one-item extraction
twice into an empty store, the identity key holds exactly one record. -/
theorem claim_C1_upsert_idempotence_witness :
    keyCount liKeyPart exLIHdr (liKeyPart { exLIItem with username := "alice" })
      (appendMongoLI exLIHdr "alice" [exLIItem]
        (appendMongoLI exLIHdr "alice" [exLIItem] [])) = 1 :=
  claim_C1_upsert_idempotence_amended.2.2.1 exLIHdr "alice" [exLIItem] [] exLIItem
    (List.mem_singleton.mpr rfl) (fun h p => by rw [keyCount_nil]; omega)

end DataDigitization
